import Mathlib

/-!
# Verification of the copper template engine against its specification

This file contains a shallow embedding, in Lean 4, of the parts of the
copper template rendering engine (Go) that the specification claims talk
about: the runtime value universe, the nested scope store (`scope/scope.go`),
the render adapter's safe-string output gate (`template/renderer.go`), the
streaming lexer (`lexer/lexer.go`, `lexer/token.go`), the Pratt parser
(`parser/parser.go`, `parser/expression.go`, `parser/statements.go`) and the
tree-walking evaluator (`evaluator/*.go`).

Modelling conventions:

* Go machine integers (`int64`) are modelled as `Int` with explicit wrapping
  (`wrap64`) where Go arithmetic can overflow; Go `/` and `%` are truncated
  division/remainder (`Int.tdiv`, `Int.tmod`).
* Go maps (`map[string]interface{}`) are modelled as association lists where
  assignment replaces the value for an existing key.  Because Go map
  iteration order is unspecified, every place in the embedded code that
  ranges over a map is parameterized by an *iteration-order oracle*; a legal
  oracle produces a permutation of the entries.
* Fallible operations return `Except`/an error-carrying sum; mutation is
  explicit state passing.  Recursive interpreters take a fuel parameter
  (`Nat`); exhausting fuel yields `none`, which is a modelling artifact and
  never identified with a result of the Go code.
* I/O errors of the rune reader / output writer are not modelled — the Go
  code only propagates them and no claim depends on them.
* Go `panic` branches that are unreachable for parser-produced input are
  modelled as distinguished errors; comments mark each one.
-/

namespace Copper

/-! ## Runtime values

The Go evaluator operates on `interface{}` values.  The kinds occurring in
the embedded fragment: nil, 64-bit integers (`normalize` widens every other
integral type to `int64` before further use, so a single integer kind is
faithful for all values the embedded evaluator can observe), booleans,
strings, `template.SafeString` (a distinct nominal wrapper whose reflect
kind is still `String`), slices `[]interface{}`, maps
`map[string]interface{}`, the `ranger.Ranger` produced by `ranger.NewInt`,
and `ranger.Status` records. -/

/-- `ranger.intRanger` (ranger/ranger.go): iterates over a half-open integer
range; `current` starts at `minInclusive - 1`. -/
structure IntRanger where
  minInclusive : Int
  maxExclusive : Int
  current : Int
  deriving Repr, DecidableEq

/-- `ranger.Status` (ranger/ranger.go). -/
structure RStatus where
  index : Int
  first : Bool
  last : Bool
  even : Bool
  odd : Bool
  hasMore : Bool
  deriving Repr, DecidableEq

inductive Value where
  | vnil
  | vint (n : Int)
  | vbool (b : Bool)
  | vstr (s : String)
  /-- `template.SafeString` -/
  | vsafe (s : String)
  | vslice (elems : List Value)
  | vmap (entries : List (String × Value))
  | vranger (r : IntRanger)
  | vstatus (st : RStatus)
  deriving Repr

/-- `ranger.NewInt` (panics if `maxExclusive ≤ minInclusive`; the panic is not
modelled, callers in this development always satisfy the precondition). -/
def IntRanger.newInt (minInclusive maxExclusive : Int) : IntRanger :=
  { minInclusive := minInclusive, maxExclusive := maxExclusive,
    current := minInclusive - 1 }

/-- `intRanger.Next`: advance if possible, report success. -/
def IntRanger.next (r : IntRanger) : Bool × IntRanger :=
  let c := r.current + 1
  if c < r.maxExclusive then (true, { r with current := c }) else (false, r)

/-- `intRanger.Value`. -/
def IntRanger.value (r : IntRanger) : Value := .vint r.current

/-- `intRanger.Status`. -/
def IntRanger.status (r : IntRanger) : RStatus :=
  let index := r.current - r.minInclusive
  let lastIndex := r.maxExclusive - r.minInclusive - 1
  let even := index.tmod 2 == 0
  { index := index, first := index == 0, last := index == lastIndex,
    even := even, odd := !even, hasMore := index < lastIndex }

/-! ## Scope (scope/scope.go)

A Go `Scope` is a struct with a parent pointer, a `values` map and a
`locked` flag.  The evaluator only ever works with a chain of scopes
(each new scope is a child of the current one), so a scope together with
its ancestors is modelled as a nonempty list of frames, head = the scope
itself, tail = parent, grandparent, …  The `values` map is an association
list in which assignment replaces the binding of an existing key. -/

abbrev Bindings := List (String × Value)

/-- Go map lookup `s.values[name]`. -/
def lookupB : Bindings → String → Option Value
  | [], _ => none
  | (k, v) :: rest, name => if k = name then some v else lookupB rest name

/-- Go map membership test. -/
def containsB (b : Bindings) (name : String) : Bool :=
  (lookupB b name).isSome

/-- Go map assignment `m[name] = v`: replaces an existing binding, otherwise
adds one. -/
def setB : Bindings → String → Value → Bindings
  | [], name, v => [(name, v)]
  | (k, w) :: rest, name, v =>
    if k = name then (k, v) :: rest else (k, w) :: setB rest name v

/-- One scope: its own `values` map and its `locked` flag. -/
structure Frame where
  values : Bindings
  locked : Bool
  deriving Repr

/-- A scope chain: head is the scope on which an operation is invoked, the
tail is its chain of parents. -/
abbrev ScopeChain := List Frame

/-- `hasValueSelf` (scope/scope.go). -/
def hasValueSelf (f : Frame) (name : String) : Bool :=
  containsB f.values name

/-- The parent-walk of `Scope.Set`: find the nearest ancestor that already
binds `name` and overwrite the binding there; `none` if no ancestor binds
it. -/
def setAncestors : List Frame → String → Value → Option (List Frame)
  | [], _, _ => none
  | f :: rest, name, v =>
    if hasValueSelf f name then
      some ({ f with values := setB f.values name v } :: rest)
    else
      match setAncestors rest name v with
      | some rest' => some (f :: rest')
      | none => none

/-- `Scope.Set` (scope/scope.go): if any ancestor already binds `name`, the
update happens in the nearest such ancestor; otherwise the binding is
created in the scope itself — unless it is locked, in which case nothing
happens.  (The empty chain does not occur; it is mapped to itself.) -/
def scopeSet (chain : ScopeChain) (name : String) (v : Value) : ScopeChain :=
  match chain with
  | [] => []
  | s :: ancestors =>
    match setAncestors ancestors name v with
    | some ancestors' => s :: ancestors'
    | none =>
      if s.locked then s :: ancestors
      else { s with values := setB s.values name v } :: ancestors

/-- `Scope.HasValue`: whether the scope or any ancestor binds `name`. -/
def scopeHasValue : ScopeChain → String → Bool
  | [], _ => false
  | f :: rest, name => hasValueSelf f name || scopeHasValue rest name

/-- `Scope.Value`: the first binding found walking current → parent → … -/
def scopeValue : ScopeChain → String → Option Value
  | [], _ => none
  | f :: rest, name =>
    match lookupB f.values name with
    | some v => some v
    | none => scopeValue rest name

/-- `Scope.Lock`: locks this scope only, not its parents. -/
def scopeLock : ScopeChain → ScopeChain
  | [] => []
  | s :: rest => { s with locked := true } :: rest

/-- `Scope.ClearSelf`: removes this scope's own entries only. -/
def scopeClearSelf : ScopeChain → ScopeChain
  | [] => []
  | s :: rest => { s with values := [] } :: rest

/-! ## Render adapter output gate (template/renderer.go) -/

mutual
/-- `expectSafe` (template/renderer.go): nil → empty; `SafeString` → its
bytes; a slice → recursive concatenation; a plain string → empty if empty,
otherwise `!UNSAFE!`; anything else → `!UNSAFE!`. -/
def expectSafe : Value → String
  | .vnil => ""
  | .vsafe s => s
  | .vslice elems => expectSafeList elems
  | .vstr s => if s ≠ "" then "!UNSAFE!" else ""
  | _ => "!UNSAFE!"

/-- The `strings.Builder` loop inside `expectSafe` for `[]interface{}`. -/
def expectSafeList : List Value → String
  | [] => ""
  | v :: rest => expectSafe v ++ expectSafeList rest
end

/-- `write` (template/renderer.go): a top-level slice is written element by
element through `writeSingle`/`expectSafe`; any other value goes through
`writeSingle` directly.  The returned string is the byte sequence written
to the output writer. -/
def renderWrite : Value → String
  | .vslice elems => expectSafeList elems
  | v => expectSafe v

/-! ## Tokens (lexer/token.go) -/

inductive TokType where
  | eofT | illegalT | trueT | falseT | nilT | identT | intT | stringT
  | assignT | bangT | plusT | minusT | asteriskT | slashT | modT
  | equalT | notEqualT | lessThanT | greaterThanT | lessOrEqualT
  | greaterOrEqualT | orT | andT | dotT | commaT | colonT
  | leftParenT | rightParenT | leftBracketT | rightBracketT
  | leftBraceT | rightBraceT
  | letT | ifT | elseT | elseIfT | endT | forT | breakT | continueT
  | inT | captureT | literalT | errorT
  /-- the parser's internal sentinel `startToken` (`Type: -1`) -/
  | startT
  deriving Repr, DecidableEq

/-- A lexical token.  The `Err` field of the Go struct is omitted: in the
embedded state-machine lexer it is only ever populated from I/O errors of
the rune source, which are not modelled. -/
structure Token where
  ttype : TokType
  literal : String
  line : Nat
  col : Nat
  deriving Repr, DecidableEq

/-! ## Lexer (lexer/lexer.go)

The Go lexer is a Pike-style state machine over a two-rune window
(`currChar`/`nextChar` with `currEOF`/`nextEOF` flags).  The window is
modelled with `Option Char` (`none` = the corresponding EOF flag); the
stale rune kept in `currChar`/`nextChar` once the flag is set is never
read by the machine.  The driver loop of `Tokens` replaces whichever state
comes next by `parseEOF` once `currEOF` holds, and stops when a state
returns nil. -/

structure LexSt where
  curr : Option Char
  next : Option Char
  rest : List Char
  line : Nat
  col : Nat
  deriving Repr, DecidableEq

/-- `readNextChar` (lexer/lexer.go): advance the two-rune window by one
rune, updating the 1-based line/column of the current rune. -/
def readNextChar (l : LexSt) : LexSt :=
  match l.curr with
  | none => l
  | some c =>
    match l.next with
    | none => { l with curr := none, col := l.col + 1 }
    | some n =>
      let (line, col) :=
        if c = '\n' then (l.line + 1, 1) else (l.line, l.col + 1)
      match l.rest with
      | r :: rest =>
        { curr := some n, next := some r, rest := rest, line := line, col := col }
      | [] =>
        { curr := some n, next := none, rest := [], line := line, col := col }

/-- Iterated `readNextChar` (the `for range literal` loop of `parseToken`). -/
def readNextChars : Nat → LexSt → LexSt
  | 0, l => l
  | n + 1, l => readNextChars n (readNextChar l)

/-- `nextCharIs` (false at `nextEOF`). -/
def nextCharIs (l : LexSt) (c : Char) : Bool := l.next = some c

/-- `isAtCodeStart`: current rune `<` followed by `%`. -/
def isAtCodeStart (l : LexSt) : Bool := l.curr = some '<' && nextCharIs l '%'

/-- `isAtCodeEnd`: current rune `%` followed by `>`. -/
def isAtCodeEnd (l : LexSt) : Bool := l.curr = some '%' && nextCharIs l '>'

def isWhitespaceChar (c : Char) : Bool :=
  c = ' ' || c = '\t' || c = '\r' || c = '\n'

def isIntChar (c : Char) : Bool := '0' ≤ c && c ≤ '9'

def isIdentChar (c : Char) : Bool :=
  ('a' ≤ c && c ≤ 'z') || ('A' ≤ c && c ≤ 'Z') || c = '_' || isIntChar c

def isIdentFirstChar (c : Char) : Bool := isIdentChar c && !isIntChar c

/-- The keyword table of lexer/lexer.go. -/
def lookupKeyword (lit : String) : Option TokType :=
  if lit = "let" then some .letT
  else if lit = "if" then some .ifT
  else if lit = "else" then some .elseT
  else if lit = "elseif" then some .elseIfT
  else if lit = "end" then some .endT
  else if lit = "for" then some .forT
  else if lit = "break" then some .breakT
  else if lit = "continue" then some .continueT
  else if lit = "in" then some .inT
  else if lit = "true" then some .trueT
  else if lit = "false" then some .falseT
  else if lit = "nil" then some .nilT
  else if lit = "capture" then some .captureT
  else none

def mkToken (t : TokType) (lit : String) (line col : Nat) : Token :=
  { ttype := t, literal := lit, line := line, col := col }

/-- Go `strings.ReplaceAll(s, pat, rep)`: replace all non-overlapping
occurrences of `pat`, scanning left to right.  (Our patterns are never
empty; the empty pattern is mapped to the identity.)  The `Nat` argument
is structural fuel instantiated with `s.length` by the wrapper below; it
never runs out because each step shortens `s` by at least one. -/
def replaceAllF : Nat → List Char → List Char → List Char → List Char
  | 0, s, _, _ => s
  | fuel + 1, s, pat, rep =>
    match s with
    | [] => []
    | c :: s' =>
      if pat ≠ [] && pat.isPrefixOf (c :: s') then
        rep ++ replaceAllF fuel ((c :: s').drop pat.length) pat rep
      else
        c :: replaceAllF fuel s' pat rep

def replaceAll (s pat rep : List Char) : List Char :=
  if pat = [] then s else replaceAllF s.length s pat rep

/-- The escape translation applied by `parseString` after scanning a string
body: six successive global replacements, in this order. -/
def decodeEscapes (s : List Char) : List Char :=
  let s := replaceAll s ['\\', 'r'] ['\r']
  let s := replaceAll s ['\\', 'n'] ['\n']
  let s := replaceAll s ['\\', 't'] ['\t']
  let s := replaceAll s ['\\', '\"'] ['\"']
  let s := replaceAll s ['\\', '\''] ['\'']
  let s := replaceAll s ['\\', '\\'] ['\\']
  s

/-- The scanning loop of `parseString`: consume runes into the buffer until
EOF or until the current rune equals the opening quote and the previous
rune was not a backslash.  Returns the buffer, the state at the stopping
rune, and whether a closing quote was found (`false` = EOF). -/
def scanString (q : Char) : Nat → Bool → List Char → LexSt →
    Option (List Char × LexSt × Bool)
  | 0, _, _, _ => none
  | fuel + 1, prevBackslash, buf, l =>
    match l.curr with
    | none => some (buf, l, false)
    | some c =>
      if c = q && !prevBackslash then some (buf, l, true)
      else scanString q fuel (c = '\\') (buf ++ [c]) (readNextChar l)

/-- The loops of `parseInt` / `parseIdent` / `parseLiteral`: consume runes
while `keep` holds of the current rune (and, for the literal state, while
not at a code start).  Returns the buffer and the state at the stopping
rune; the second component of the result tells whether the loop stopped at
EOF. -/
def scanWhile (keep : LexSt → Bool) : Nat → List Char → LexSt →
    Option (List Char × LexSt)
  | 0, _, _ => none
  | fuel + 1, buf, l =>
    match l.curr with
    | none => some (buf, l)
    | some c =>
      if keep l then scanWhile keep fuel (buf ++ [c]) (readNextChar l)
      else some (buf, l)

/-- `skipWhitespace`. -/
def skipWs : Nat → LexSt → Option LexSt
  | 0, _ => none
  | fuel + 1, l =>
    match l.curr with
    | none => some l
    | some c => if isWhitespaceChar c then skipWs fuel (readNextChar l) else some l

/-- The loop of `parseLineComment`: consume to end of line, or (when the
lexer started in literal mode) to a `%>`.  Result: the stopping state and
the continuation — `none` = EOF, `some true` = stop at `%>` (continue with
`parseCodeEnd`), `some false` = stop at `'\n'` (continue with `parseCode`,
which then skips the newline as whitespace). -/
def scanLineComment (optStartInCode : Bool) : Nat → LexSt →
    Option (LexSt × Option Bool)
  | 0, _ => none
  | fuel + 1, l =>
    match l.curr with
    | none => some (l, none)
    | some c =>
      if c = '\n' then some (l, some false)
      else if !optStartInCode && isAtCodeEnd l then some (l, some true)
      else scanLineComment optStartInCode fuel (readNextChar l)

/-- The loop of `parseBlockComment`: consume through `*/`.  Result: the
state after the comment and whether the terminator was found (`false` =
EOF). -/
def scanBlockComment : Nat → LexSt → Option (LexSt × Bool)
  | 0, _ => none
  | fuel + 1, l =>
    match l.curr with
    | none => some (l, false)
    | some c =>
      if c = '*' && nextCharIs l '/' then
        some (readNextChars 2 l, true)
      else scanBlockComment fuel (readNextChar l)

/-- The state functions that can be handed back to the driver loop of
`Tokens`.  The dispatch-only states of `parseCode` (operator, string, int,
ident, comment and illegal handling) are entered with a non-EOF current
rune and are therefore inlined into the `code` state below; this is
behavior-preserving because the driver's EOF hijack is the identity on
them. -/
inductive LexFn where
  | literalFn | codeFn | codeStartFn | codeEndFn | eofFn
  deriving Repr, DecidableEq

set_option maxHeartbeats 1000000

/-- The driver loop inside `Tokens` (lexer/lexer.go): while the state is
non-nil, replace it by `parseEOF` if the input is exhausted, then run it;
produces the token stream written to the token channel.  The bodies of the
state functions `parseLiteral` and `parseCode` (with the dispatch-only
states `parseInt`, `parseIdent`, `parseString`, `parseSlashOrComment`,
`parseAssignOrEqual`, `parseBangOrNotEqual`, `parseModOrCodeEnd`,
`parseLessThanOrLessEqual`, `parseGreaterThanOrGreaterEqual`,
`parseToken`, `parseIllegal`) are written inline in the corresponding
branches, each tail-calling the driver for its next state, so that the
whole machine is a single structural recursion on the fuel. -/
def lexStep (sic : Bool) : Nat → LexFn → LexSt → Option (List Token)
  | 0, _, _ => none
  | fuel + 1, fn, l =>
    if l.curr = none then
      -- parseEOF: emit the EOF token and stop (also the eofFn state itself)
      some [mkToken .eofT "" l.line l.col]
    else
      match fn with
      | .eofFn => some [mkToken .eofT "" l.line l.col]
      | .codeStartFn =>
        -- parseCodeStart: consume the two runes of `<%`, continue in code mode
        lexStep sic fuel .codeFn (readNextChars 2 l)
      | .codeEndFn =>
        -- parseCodeEnd: consume the two runes of `%>`, continue in literal mode
        lexStep sic fuel .literalFn (readNextChars 2 l)
      | .literalFn =>
        -- parseLiteral: accumulate runes until EOF or `<%`; the deferred
        -- emitTokenBuffer always emits a Literal token (possibly empty)
        -- carrying the position at state entry
        match scanWhile (fun st => !isAtCodeStart st) fuel [] l with
        | none => none
        | some (buf, l') =>
          let tok := mkToken .literalT (String.mk buf) l.line l.col
          match lexStep sic fuel
              (if l'.curr = none then .eofFn else .codeStartFn) l' with
          | none => none
          | some rest => some (tok :: rest)
      | .codeFn =>
        -- parseCode
        match skipWs fuel l with
        | none => none
        | some l =>
          -- parseToken: emit a token for an operator literal at the current
          -- position, consume one rune per rune, continue in code mode
          let lexOp : TokType → String → Option (List Token) := fun t lit =>
            match lexStep sic fuel .codeFn (readNextChars lit.length l) with
            | none => none
            | some rest => some (mkToken t lit l.line l.col :: rest)
          match l.curr with
          | none =>
            -- every state returned by parseCode goes back through the
            -- driver's EOF hijack
            lexStep sic fuel .eofFn l
          | some c =>
            if isIntChar c then
              -- parseInt
              match scanWhile
                  (fun st => match st.curr with
                    | some c => isIntChar c
                    | none => false) fuel [] l with
              | none => none
              | some (buf, l') =>
                let tok := mkToken .intT (String.mk buf) l.line l.col
                match lexStep sic fuel .codeFn l' with
                | none => none
                | some rest => some (tok :: rest)
            else if isIdentFirstChar c then
              -- parseIdent; the deferred emit looks the literal up in the
              -- keyword table
              match scanWhile
                  (fun st => match st.curr with
                    | some c => isIdentChar c
                    | none => false) fuel [] l with
              | none => none
              | some (buf, l') =>
                let lit := String.mk buf
                let t := (lookupKeyword lit).getD .identT
                let tok := mkToken t lit l.line l.col
                match lexStep sic fuel .codeFn l' with
                | none => none
                | some rest => some (tok :: rest)
            else if c = '\"' || c = '\'' then
              -- parseString
              match scanString c fuel false [] (readNextChar l) with
              | none => none
              | some (buf, l', terminated) =>
                if terminated then
                  let tok :=
                    mkToken .stringT (String.mk (decodeEscapes buf)) l.line l.col
                  match lexStep sic fuel .codeFn (readNextChar l') with
                  | none => none
                  | some rest => some (tok :: rest)
                else
                  -- EOF inside the string: the deferred emit fires with the
                  -- raw buffer
                  let tok := mkToken .stringT (String.mk buf) l.line l.col
                  match lexStep sic fuel .eofFn l' with
                  | none => none
                  | some rest => some (tok :: rest)
            else if c = '=' then
              if nextCharIs l '=' then lexOp .equalT "=="
              else lexOp .assignT "="
            else if c = '+' then lexOp .plusT "+"
            else if c = '-' then lexOp .minusT "-"
            else if c = '*' then lexOp .asteriskT "*"
            else if c = '/' then
              if nextCharIs l '/' then
                -- parseLineComment: consume the two runes of `//`, then scan
                match scanLineComment sic fuel (readNextChars 2 l) with
                | none => none
                | some (l', none) => lexStep sic fuel .eofFn l'
                | some (l', some true) => lexStep sic fuel .codeEndFn l'
                | some (l', some false) => lexStep sic fuel .codeFn l'
              else if nextCharIs l '*' then
                -- parseBlockComment: consume the two runes of `/*`, then scan
                match scanBlockComment fuel (readNextChars 2 l) with
                | none => none
                | some (l', false) => lexStep sic fuel .eofFn l'
                | some (l', true) => lexStep sic fuel .codeFn l'
              else lexOp .slashT "/"
            else if c = '!' then
              if nextCharIs l '=' then lexOp .notEqualT "!="
              else lexOp .bangT "!"
            else if c = '%' then
              if nextCharIs l '>' then lexStep sic fuel .codeEndFn l
              else lexOp .modT "%"
            else if c = '(' then lexOp .leftParenT "("
            else if c = ')' then lexOp .rightParenT ")"
            else if c = '[' then lexOp .leftBracketT "["
            else if c = ']' then lexOp .rightBracketT "]"
            else if c = '{' then lexOp .leftBraceT "\x7b"
            else if c = '}' then lexOp .rightBraceT "\x7d"
            else if c = '.' then lexOp .dotT "."
            else if c = ',' then lexOp .commaT ","
            else if c = ':' then lexOp .colonT ":"
            else if c = '<' then
              if nextCharIs l '=' then lexOp .lessOrEqualT "<="
              else lexOp .lessThanT "<"
            else if c = '>' then
              if nextCharIs l '=' then lexOp .greaterOrEqualT ">="
              else lexOp .greaterThanT ">"
            else
              -- parseIllegal: emit an Illegal token with the current rune
              -- and stop
              some [mkToken .illegalT (String.mk [c]) l.line l.col]

/-- `initialize` (lexer/lexer.go): two `readNextChar` calls starting from the
zero-valued window, then line/column are reset to (1,1).  Before the first
read, `currChar`/`nextChar` hold Go's zero rune. -/
def lexInit (input : List Char) : LexSt :=
  let nul : Char := Char.ofNat 0
  let l : LexSt :=
    { curr := some nul, next := some nul, rest := input, line := 0, col := 0 }
  let l := readNextChar (readNextChar l)
  { l with line := 1, col := 1 }

/-- `Tokens` (lexer/lexer.go): the full token stream for an input, starting
in literal mode unless `sic` (`WithStartInCodeMode`) is set. -/
def lexTokens (sic : Bool) (fuel : Nat) (input : String) : Option (List Token) :=
  lexStep sic fuel (if sic then .codeFn else .literalFn) (lexInit input.data)

/-! ## Abstract syntax tree (ast/*.go)

The claims exercise the node variants below.  `ast.HashExpression` stores
its entries in a Go map `map[string]Expression`; the embedding keeps the
association list in the order the parser inserted the entries, and the
evaluator consults an iteration-order oracle wherever the Go code ranges
over the map, so that no result may depend on the list order unless the
Go code's map order could produce it. -/

/-- `ast.Ident`. -/
structure IdentE where
  startLine : Nat
  startCol : Nat
  name : String
  deriving Repr, DecidableEq

mutual
inductive Expression where
  | nilLit (startLine startCol : Nat)
  | intLit (startLine startCol : Nat) (value : Int)
  | boolLit (startLine startCol : Nat) (value : Bool)
  | stringLit (startLine startCol : Nat) (value : String)
  /-- `ast.Literal`: raw template text outside code mode -/
  | literal (startLine startCol : Nat) (text : String)
  | identE (startLine startCol : Nat) (name : String)
  | prefixE (startLine startCol : Nat) (operator : String) (expr : Expression)
  | infixE (startLine startCol : Nat) (operator : String)
      (left right : Expression)
  | ifE (startLine startCol : Nat) (conditionals : List ConditionalBlock)
  | forE (startLine startCol : Nat) (ident : IdentE)
      (statusIdent : Option IdentE) (rangeExpr : Expression) (body : Block)
  | captureE (startLine startCol : Nat) (body : Block)
  | callE (startLine startCol : Nat) (callee : Expression)
      (params : List Expression)
  | fieldE (startLine startCol : Nat) (callee : Expression)
      (index : Expression)
  | hashE (startLine startCol : Nat) (entries : List (String × Expression))
  deriving Repr

inductive ConditionalBlock where
  | mk (startLine startCol : Nat) (condition : Option Expression)
      (block : Block)
  deriving Repr

inductive Statement where
  | letS (startLine startCol : Nat) (ident : IdentE) (expr : Expression)
  | breakS (startLine startCol : Nat)
  | continueS (startLine startCol : Nat)
  | exprS (startLine startCol : Nat) (expr : Expression)
  deriving Repr

inductive Block where
  | mk (startLine startCol : Nat) (stmts : List Statement)
  deriving Repr
end

/-- `Node.Line` for expressions (each variant returns its `StartLine`). -/
def Expression.lineOf : Expression → Nat
  | .nilLit l _ | .intLit l _ _ | .boolLit l _ _ | .stringLit l _ _
  | .literal l _ _ | .identE l _ _ | .prefixE l _ _ _ | .infixE l _ _ _ _
  | .ifE l _ _ | .forE l _ _ _ _ _ | .captureE l _ _ | .callE l _ _ _
  | .fieldE l _ _ _ | .hashE l _ _ => l

/-- `Node.Col` for expressions. -/
def Expression.colOf : Expression → Nat
  | .nilLit _ c | .intLit _ c _ | .boolLit _ c _ | .stringLit _ c _
  | .literal _ c _ | .identE _ c _ | .prefixE _ c _ _ | .infixE _ c _ _ _
  | .ifE _ c _ | .forE _ c _ _ _ _ | .captureE _ c _ | .callE _ c _ _
  | .fieldE _ c _ _ | .hashE _ c _ => c

/-- `Node.Line` for statements. -/
def Statement.lineOf : Statement → Nat
  | .letS l _ _ _ | .breakS l _ | .continueS l _ | .exprS l _ _ => l

/-- `Node.Col` for statements. -/
def Statement.colOf : Statement → Nat
  | .letS _ c _ _ | .breakS _ c | .continueS _ c | .exprS _ c _ => c

def Block.stmts : Block → List Statement
  | .mk _ _ sts => sts

/-- `ast.Program`. -/
structure Program where
  startLine : Nat
  startCol : Nat
  stmts : List Statement
  deriving Repr

/-! ## Parser (parser/parser.go, parser/expression.go, parser/statements.go)

The Go parser pulls tokens from the lexer channel with a two-token window
(`currToken`/`nextToken`).  Receiving from the closed channel after the
stream is exhausted would dereference a nil token in Go; this is
unreachable for lexer-produced streams (which always end in `EOF`) and is
modelled as a distinguished error. -/

/-- A parse error `(line, column, message)` (parser/error.go). -/
structure PError where
  line : Nat
  col : Nat
  msg : String
  deriving Repr, DecidableEq

structure PSt where
  curr : Token
  next : Token
  stream : List Token
  deriving Repr

/-- `startToken` (`lexer.Token{Type: -1}`). -/
def startToken : Token := { ttype := .startT, literal := "", line := 0, col := 0 }

/-- The parser's result: `none` = out of fuel (modelling artifact). -/
inductive POut (α : Type) where
  | perr (e : PError)
  | ok (a : α) (st : PSt)
  deriving Repr

abbrev PRes (α : Type) := Option (POut α)

/-- `readNextToken` (parser/parser.go): advance the window.  A lexer error
or `Illegal` token in the incoming `nextToken` aborts with a parse error. -/
def readNextToken (p : PSt) : POut Unit :=
  if p.curr.ttype = .eofT then .ok () p
  else
    let p := { p with curr := p.next }
    if p.curr.ttype = .eofT then .ok () p
    else
      match p.stream with
      | [] =>
        -- receiving from the closed channel; unreachable for lexer streams
        .perr ⟨p.curr.line, p.curr.col, "token stream exhausted"⟩
      | t :: rest =>
        let p := { p with next := t, stream := rest }
        if t.ttype = .illegalT then
          .perr ⟨t.line, t.col, s!"illegal token found: {t.literal}"⟩
        else .ok () p

/-- `expectNext`: the next token must have type `t`; advance onto it. -/
def expectNext (t : TokType) (p : PSt) : POut Unit :=
  if p.next.ttype ≠ t then
    .perr ⟨p.next.line, p.next.col, "expected token"⟩
  else readNextToken p

/-- `precedences` (parser/parser.go); `none` = the token is not an operator. -/
def tokenPrecedence : TokType → Option Nat
  | .orT => some 2
  | .andT => some 3
  | .equalT | .notEqualT => some 4
  | .lessThanT | .lessOrEqualT | .greaterThanT | .greaterOrEqualT => some 5
  | .plusT | .minusT => some 6
  | .slashT | .asteriskT | .modT => some 7
  | .leftParenT | .dotT | .leftBracketT => some 9
  | _ => none

/-- `precedenceLowest`. -/
def precedenceLowest : Nat := 1

/-- `precedencePrefix`. -/
def precedencePrefix : Nat := 8

/-- `parseIdentExpr` (parser/expression.go). -/
def parseIdentExpr (p : PSt) : POut IdentE :=
  let e : IdentE := ⟨p.curr.line, p.curr.col, p.curr.literal⟩
  match readNextToken p with
  | .perr er => .perr er
  | .ok _ p => .ok e p

/-- `strconv.ParseInt(lit, 10, 64)` on a lexer `Int` literal (a nonempty
digit run): out-of-range values error. -/
def parseDigits : List Char → Nat → Option Nat
  | [], acc => some acc
  | c :: rest, acc =>
    if isIntChar c then
      parseDigits rest (acc * 10 + (c.toNat - '0'.toNat))
    else none

def parseInt64 (lit : String) : Option Int :=
  match lit.data with
  | [] => none
  | _ :: _ =>
    match parseDigits lit.data 0 with
    | none => none
    | some n => if (n : Int) ≤ 2 ^ 63 - 1 then some (n : Int) else none

/-- The parser's recursion is expressed as a single function `parseStep`
over a request sum, structurally recursive on the fuel; each request
constructor corresponds to one parser function of the Go source (or to
one of its internal loops), and the named wrappers below restore the
*original signatures.  The answer sum `PAns` carries each function's
result type. -/
inductive PReq where
  /-- `parseExpression` -/
  | expr (precedence : Nat) (p : PSt)
  /-- the infix loop inside `parseExpression` -/
  | exprLoop (precedence : Nat) (e : Expression) (p : PSt)
  /-- the prefix parse function table dispatch -/
  | prefixFn (p : PSt)
  /-- the infix parse function table dispatch -/
  | infixFn (left : Expression) (currPrec : Nat) (p : PSt)
  /-- `parseIfExpression` -/
  | ifExpr (p : PSt)
  /-- the conditional-block loop of `parseIfExpression` -/
  | ifLoop (blockStartType : TokType) (ifLine ifCol bsLine bsCol : Nat)
      (haveElse : Bool) (conditionals : List ConditionalBlock) (p : PSt)
  /-- `parseForExpression` -/
  | forExpr (p : PSt)
  /-- `parseBlock` -/
  | blockReq (endTokenTypes : List TokType) (p : PSt)
  /-- the statement loop shared by `parseBlock`, `parseForExpression` and
  `Parse` -/
  | stmtsUntil (stopTypes : List TokType) (acc : List Statement) (p : PSt)
  /-- `parseCallExpression` -/
  | callExpr (left : Expression) (p : PSt)
  /-- the parameter loop of `parseCallExpression` -/
  | callParams (acc : List Expression) (p : PSt)
  /-- `parseFieldExpression` -/
  | fieldExpr (left : Expression) (p : PSt)
  /-- `parseHashExpression` -/
  | hashExpr (p : PSt)
  /-- the entry loop of `parseHashExpression` -/
  | hashEntries (first : Bool) (acc : List (String × Expression)) (p : PSt)
  /-- `parseStatement` -/
  | stmtReq (p : PSt)

inductive PAns where
  | expr (e : Expression)
  | exprCont (e : Expression) (cont : Bool)
  | blockTok (b : Block) (endToken : Token)
  | stmts (sts : List Statement)
  | exprs (es : List Expression)
  | entries (es : List (String × Expression))
  | stmt (s : Statement)
  deriving Repr

/-- One parser computation; `none` = out of fuel (modelling artifact). -/
def parseStep : Nat → PReq → Option (POut PAns)
  | 0, _ => none
  | fuel + 1, req =>
    match req with
    | .expr precedence p =>
      -- parseExpression (parser/expression.go): Pratt parsing; dispatch the
      -- prefix parse function for the current token, then fold infix parse
      -- functions while the incoming operator binds tighter
      if p.curr.ttype = .eofT then
        some (.perr ⟨p.curr.line, p.curr.col, "expression expected"⟩)
      else
        match parseStep fuel (.prefixFn p) with
        | none => none
        | some (.perr e) => some (.perr e)
        | some (.ok (.expr e) p) => parseStep fuel (.exprLoop precedence e p)
        | some (.ok _ _) => none
    | .exprLoop precedence e p =>
      if p.curr.ttype = .eofT then some (.ok (.expr e) p)
      else
        match tokenPrecedence p.curr.ttype with
        | none => some (.ok (.expr e) p)
        | some currPrec =>
          if precedence ≥ currPrec then some (.ok (.expr e) p)
          else
            match parseStep fuel (.infixFn e currPrec p) with
            | none => none
            | some (.perr er) => some (.perr er)
            | some (.ok (.exprCont e true) p) =>
              parseStep fuel (.exprLoop precedence e p)
            | some (.ok (.exprCont e false) p) => some (.ok (.expr e) p)
            | some (.ok _ _) => none
    | .prefixFn p =>
      -- the prefix parse function table registered in initialize
      -- (parser/parser.go): dispatch on the current token type
      match p.curr.ttype with
      | .identT =>
        -- parseIdentExpression
        let e := Expression.identE p.curr.line p.curr.col p.curr.literal
        match readNextToken p with
        | .perr er => some (.perr er)
        | .ok _ p => some (.ok (.expr e) p)
      | .intT =>
        -- parseIntLiteral
        match parseInt64 p.curr.literal with
        | none =>
          some (.perr ⟨p.curr.line, p.curr.col, "error parsing int literal"⟩)
        | some v =>
          let e := Expression.intLit p.curr.line p.curr.col v
          match readNextToken p with
          | .perr er => some (.perr er)
          | .ok _ p => some (.ok (.expr e) p)
      | .stringT =>
        -- parseStringLiteral
        let e := Expression.stringLit p.curr.line p.curr.col p.curr.literal
        match readNextToken p with
        | .perr er => some (.perr er)
        | .ok _ p => some (.ok (.expr e) p)
      | .bangT =>
        -- parsePrefixExpression
        let op := p.curr.literal
        let line := p.curr.line
        let col := p.curr.col
        match readNextToken p with
        | .perr er => some (.perr er)
        | .ok _ p =>
          match parseStep fuel (.expr precedencePrefix p) with
          | none => none
          | some (.perr er) => some (.perr er)
          | some (.ok (.expr expr) p) =>
            some (.ok (.expr (.prefixE line col op expr)) p)
          | some (.ok _ _) => none
      | .minusT =>
        -- parsePrefixExpression
        let op := p.curr.literal
        let line := p.curr.line
        let col := p.curr.col
        match readNextToken p with
        | .perr er => some (.perr er)
        | .ok _ p =>
          match parseStep fuel (.expr precedencePrefix p) with
          | none => none
          | some (.perr er) => some (.perr er)
          | some (.ok (.expr expr) p) =>
            some (.ok (.expr (.prefixE line col op expr)) p)
          | some (.ok _ _) => none
      | .trueT =>
        -- parseBoolLiteral
        let e := Expression.boolLit p.curr.line p.curr.col true
        match readNextToken p with
        | .perr er => some (.perr er)
        | .ok _ p => some (.ok (.expr e) p)
      | .falseT =>
        -- parseBoolLiteral
        let e := Expression.boolLit p.curr.line p.curr.col false
        match readNextToken p with
        | .perr er => some (.perr er)
        | .ok _ p => some (.ok (.expr e) p)
      | .leftParenT =>
        -- parseGroupedExpression
        match readNextToken p with
        | .perr er => some (.perr er)
        | .ok _ p =>
          match parseStep fuel (.expr precedenceLowest p) with
          | none => none
          | some (.perr er) => some (.perr er)
          | some (.ok (.expr e) p) =>
            if p.curr.ttype ≠ .rightParenT then
              some (.perr ⟨p.curr.line, p.curr.col, "right paren expected"⟩)
            else
              match readNextToken p with
              | .perr er => some (.perr er)
              | .ok _ p => some (.ok (.expr e) p)
          | some (.ok _ _) => none
      | .ifT => parseStep fuel (.ifExpr p)
      | .nilT =>
        -- parseNilLiteral: note the position is read *after* advancing, so
        -- the node records the next token's position (the first source
        -- file layout cited by the spec's design notes)
        match readNextToken p with
        | .perr er => some (.perr er)
        | .ok _ p => some (.ok (.expr (.nilLit p.curr.line p.curr.col)) p)
      | .captureT =>
        -- parseCaptureExpression
        let line := p.curr.line
        let col := p.curr.col
        match readNextToken p with
        | .perr er => some (.perr er)
        | .ok _ p =>
          match parseStep fuel (.blockReq [.endT] p) with
          | none => none
          | some (.perr er) => some (.perr er)
          | some (.ok (.blockTok b _) p) =>
            some (.ok (.expr (.captureE line col b)) p)
          | some (.ok _ _) => none
      | .forT => parseStep fuel (.forExpr p)
      | .leftBraceT => parseStep fuel (.hashExpr p)
      | .literalT =>
        -- parseLiteralExpression
        let e := Expression.literal p.curr.line p.curr.col p.curr.literal
        match readNextToken p with
        | .perr er => some (.perr er)
        | .ok _ p => some (.ok (.expr e) p)
      | _ =>
        some (.perr ⟨p.curr.line, p.curr.col,
          s!"no prefix parse function found for {p.curr.literal}"⟩)
    | .infixFn left currPrec p =>
      -- the infix parse function table registered in initialize: the binary
      -- operators use parseInfixExpression, `(` uses parseCallExpression,
      -- `.`/`[` use parseFieldExpression.  Every token type carrying a
      -- precedence is registered, so the panic for a missing infix parse
      -- function is unreachable and modelled as an error
      match p.curr.ttype with
      | .equalT | .notEqualT | .lessThanT | .greaterThanT | .lessOrEqualT
      | .greaterOrEqualT | .orT | .andT | .plusT | .minusT | .slashT
      | .asteriskT | .modT =>
        -- parseInfixExpression: note StartLine/StartCol are taken from the
        -- *left* operand, not from the operator token
        let op := p.curr.literal
        match readNextToken p with
        | .perr er => some (.perr er)
        | .ok _ p =>
          match parseStep fuel (.expr currPrec p) with
          | none => none
          | some (.perr er) => some (.perr er)
          | some (.ok (.expr right) p) =>
            some (.ok (.exprCont
              (.infixE left.lineOf left.colOf op left right) true) p)
          | some (.ok _ _) => none
      | .leftParenT => parseStep fuel (.callExpr left p)
      | .dotT => parseStep fuel (.fieldExpr left p)
      | .leftBracketT => parseStep fuel (.fieldExpr left p)
      | _ =>
        some (.perr ⟨p.curr.line, p.curr.col, "no infix parse function found"⟩)
    | .ifExpr p =>
      -- parseIfExpression (parser/expression.go)
      let ifLine := p.curr.line
      let ifCol := p.curr.col
      match readNextToken p with
      | .perr er => some (.perr er)
      | .ok _ p =>
        parseStep fuel (.ifLoop .ifT ifLine ifCol ifLine ifCol false [] p)
    | .ifLoop blockStartType ifLine ifCol bsLine bsCol haveElse conditionals p =>
      -- the conditional-block loop of parseIfExpression; blockStart* is the
      -- token that opened the current block (if/elseif/else)
      if p.curr.ttype = .eofT then
        -- fell out of the loop without end
        some (.perr ⟨p.curr.line, p.curr.col, "premature end of file"⟩)
      else
        if blockStartType = .elseT && haveElse then
          some (.perr ⟨bsLine, bsCol,
            "if expression can only have a single else block"⟩)
        else if blockStartType = .elseIfT && haveElse then
          some (.perr ⟨bsLine, bsCol,
            "else block must be last in if expression"⟩)
        else
          let haveElse := haveElse || blockStartType = .elseT
          let condRes : Option (POut (Option Expression)) :=
            if blockStartType = .ifT || blockStartType = .elseIfT then
              match parseStep fuel (.expr precedenceLowest p) with
              | none => none
              | some (.perr er) => some (.perr er)
              | some (.ok (.expr e) p) => some (.ok (some e) p)
              | some (.ok _ _) => none
            else some (.ok none p)
          match condRes with
          | none => none
          | some (.perr er) => some (.perr er)
          | some (.ok cond p) =>
            match parseStep fuel (.blockReq [.elseIfT, .elseT, .endT] p) with
            | none => none
            | some (.perr er) => some (.perr er)
            | some (.ok (.blockTok b endToken) p) =>
              let c := ConditionalBlock.mk bsLine bsCol cond b
              let conditionals := conditionals ++ [c]
              if endToken.ttype = .endT then
                some (.ok (.expr (.ifE ifLine ifCol conditionals)) p)
              else
                parseStep fuel (.ifLoop endToken.ttype ifLine ifCol
                  endToken.line endToken.col haveElse conditionals p)
            | some (.ok _ _) => none
    | .forExpr p =>
      -- parseForExpression (parser/expression.go).  The block is parsed by
      -- an inline copy of the parseBlock loop, as in the source
      -- ("TODO: replace all this by call to parseBlock")
      let line := p.curr.line
      let col := p.curr.col
      match readNextToken p with
      | .perr er => some (.perr er)
      | .ok _ p =>
        match parseIdentExpr p with
        | .perr er => some (.perr er)
        | .ok ident p =>
          let statusRes : POut (Option IdentE) :=
            if p.curr.ttype = .commaT then
              match readNextToken p with
              | .perr er => .perr er
              | .ok _ p =>
                match parseIdentExpr p with
                | .perr er => .perr er
                | .ok si p => .ok (some si) p
            else .ok none p
          match statusRes with
          | .perr er => some (.perr er)
          | .ok statusIdent p =>
            if p.curr.ttype ≠ .inT then
              some (.perr ⟨p.curr.line, p.curr.col, "in keyword expected"⟩)
            else
              match readNextToken p with
              | .perr er => some (.perr er)
              | .ok _ p =>
                match parseStep fuel (.expr precedenceLowest p) with
                | none => none
                | some (.perr er) => some (.perr er)
                | some (.ok (.expr rangeExpr) p) =>
                  let blockLine := p.curr.line
                  let blockCol := p.curr.col
                  match parseStep fuel (.stmtsUntil [.endT] [] p) with
                  | none => none
                  | some (.perr er) => some (.perr er)
                  | some (.ok (.stmts stmts) p) =>
                    if p.curr.ttype ≠ .endT then
                      some (.perr ⟨p.curr.line, p.curr.col,
                        "end of for expression not found"⟩)
                    else
                      match readNextToken p with
                      | .perr er => some (.perr er)
                      | .ok _ p =>
                        some (.ok (.expr (.forE line col ident statusIdent
                          rangeExpr (.mk blockLine blockCol stmts))) p)
                  | some (.ok _ _) => none
                | some (.ok _ _) => none
    | .blockReq endTokenTypes p =>
      -- parseBlock (parser/expression.go): statements until EOF or one of
      -- the endTokenTypes; EOF is an error; the end token is consumed and
      -- returned
      let line := p.curr.line
      let col := p.curr.col
      match parseStep fuel (.stmtsUntil endTokenTypes [] p) with
      | none => none
      | some (.perr er) => some (.perr er)
      | some (.ok (.stmts statements) p) =>
        let endToken := p.curr
        if p.curr.ttype = .eofT then
          some (.perr ⟨p.curr.line, p.curr.col, "end of block not found"⟩)
        else
          match readNextToken p with
          | .perr er => some (.perr er)
          | .ok _ p =>
            some (.ok (.blockTok (.mk line col statements) endToken) p)
      | some (.ok _ _) => none
    | .stmtsUntil stopTypes acc p =>
      -- the statement loop shared by parseBlock, parseForExpression and
      -- Parse: parse statements while the current token is neither EOF nor
      -- in stopTypes
      if p.curr.ttype = .eofT || stopTypes.contains p.curr.ttype then
        some (.ok (.stmts acc) p)
      else
        match parseStep fuel (.stmtReq p) with
        | none => none
        | some (.perr er) => some (.perr er)
        | some (.ok (.stmt s) p) =>
          parseStep fuel (.stmtsUntil stopTypes (acc ++ [s]) p)
        | some (.ok _ _) => none
    | .callExpr left p =>
      -- parseCallExpression (parser/expression.go)
      match readNextToken p with
      | .perr er => some (.perr er)
      | .ok _ p =>
        match parseStep fuel (.callParams [] p) with
        | none => none
        | some (.perr er) => some (.perr er)
        | some (.ok (.exprs params) p) =>
          if p.curr.ttype ≠ .rightParenT then
            some (.perr ⟨p.curr.line, p.curr.col, "right paren expected"⟩)
          else
            match readNextToken p with
            | .perr er => some (.perr er)
            | .ok _ p =>
              some (.ok (.exprCont
                (.callE left.lineOf left.colOf left params) true) p)
        | some (.ok _ _) => none
    | .callParams acc p =>
      -- the parameter loop of parseCallExpression
      if p.curr.ttype = .eofT || p.curr.ttype = .rightParenT then
        some (.ok (.exprs acc) p)
      else
        match parseStep fuel (.expr precedenceLowest p) with
        | none => none
        | some (.perr er) => some (.perr er)
        | some (.ok (.expr param) p) =>
          let acc := acc ++ [param]
          if p.curr.ttype = .rightParenT then some (.ok (.exprs acc) p)
          else if p.curr.ttype ≠ .commaT then
            some (.perr ⟨p.curr.line, p.curr.col, "comma expected"⟩)
          else
            match readNextToken p with
            | .perr er => some (.perr er)
            | .ok _ p => parseStep fuel (.callParams acc p)
        | some (.ok _ _) => none
    | .fieldExpr left p =>
      -- parseFieldExpression (parser/expression.go): `x.y` desugars to
      -- `x["y"]`; `x[e]` requires a closing bracket
      let dot := p.curr.ttype = .dotT
      match readNextToken p with
      | .perr er => some (.perr er)
      | .ok _ p =>
        if dot then
          if p.curr.ttype ≠ .identT then
            some (.perr ⟨p.curr.line, p.curr.col,
              "expected identifier as field index"⟩)
          else
            let idx := Expression.stringLit p.curr.line p.curr.col
              p.curr.literal
            match readNextToken p with
            | .perr er => some (.perr er)
            | .ok _ p =>
              some (.ok (.exprCont
                (.fieldE left.lineOf left.colOf left idx) true) p)
        else
          match parseStep fuel (.expr precedenceLowest p) with
          | none => none
          | some (.perr er) => some (.perr er)
          | some (.ok (.expr expr) p) =>
            if p.curr.ttype ≠ .rightBracketT then
              some (.perr ⟨p.curr.line, p.curr.col, "expected right bracket"⟩)
            else
              match readNextToken p with
              | .perr er => some (.perr er)
              | .ok _ p =>
                some (.ok (.exprCont
                  (.fieldE left.lineOf left.colOf left expr) true) p)
          | some (.ok _ _) => none
    | .hashExpr p =>
      -- parseHashExpression (parser/expression.go).  The Go code inserts
      -- into a map[string]ast.Expression; the embedding accumulates the
      -- entries in insertion order, with the duplicate test performed on
      -- the accumulated keys exactly like the Go map membership test
      let line := p.curr.line
      let col := p.curr.col
      match readNextToken p with
      | .perr er => some (.perr er)
      | .ok _ p =>
        match parseStep fuel (.hashEntries true [] p) with
        | none => none
        | some (.perr er) => some (.perr er)
        | some (.ok (.entries values) p) =>
          if p.curr.ttype ≠ .rightBraceT then
            some (.perr ⟨p.curr.line, p.curr.col,
              "expected right brace to end hash expression"⟩)
          else
            match readNextToken p with
            | .perr er => some (.perr er)
            | .ok _ p => some (.ok (.expr (.hashE line col values)) p)
        | some (.ok _ _) => none
    | .hashEntries first acc p =>
      -- the entry loop of parseHashExpression
      if p.curr.ttype = .eofT || p.curr.ttype = .rightBraceT then
        some (.ok (.entries acc) p)
      else
        let commaRes : POut Unit :=
          if !first then
            if p.curr.ttype ≠ .commaT then
              .perr ⟨p.curr.line, p.curr.col,
                "expected comma before next hash element"⟩
            else readNextToken p
          else .ok () p
        match commaRes with
        | .perr er => some (.perr er)
        | .ok _ p =>
          let keyLine := p.curr.line
          let keyCol := p.curr.col
          match parseStep fuel (.expr precedenceLowest p) with
          | none => none
          | some (.perr er) => some (.perr er)
          | some (.ok (.expr keyExpr) p) =>
            match keyExpr with
            | .stringLit _ _ key =>
              if p.curr.ttype ≠ .colonT then
                some (.perr ⟨p.curr.line, p.curr.col,
                  "expected colon after key in hash expression"⟩)
              else
                match readNextToken p with
                | .perr er => some (.perr er)
                | .ok _ p =>
                  if key = "" then
                    some (.perr ⟨keyLine, keyCol,
                      "empty key in hash expression"⟩)
                  else if acc.any (fun kv => kv.1 = key) then
                    some (.perr ⟨keyLine, keyCol,
                      s!"duplicate key in hash expression: {key}"⟩)
                  else
                    match parseStep fuel (.expr precedenceLowest p) with
                    | none => none
                    | some (.perr er) => some (.perr er)
                    | some (.ok (.expr value) p) =>
                      parseStep fuel
                        (.hashEntries false (acc ++ [(key, value)]) p)
                    | some (.ok _ _) => none
            | _ =>
              some (.perr ⟨keyLine, keyCol,
                "key in hash expression is not a string"⟩)
          | some (.ok _ _) => none
    | .stmtReq p =>
      -- parseStatement (parser/statements.go)
      match p.curr.ttype with
      | .letT =>
        -- parseLetStatement
        let line := p.curr.line
        let col := p.curr.col
        match expectNext .identT p with
        | .perr er => some (.perr er)
        | .ok _ p =>
          let name := p.curr.literal
          match expectNext .assignT p with
          | .perr er => some (.perr er)
          | .ok _ p =>
            match readNextToken p with
            | .perr er => some (.perr er)
            | .ok _ p =>
              match parseStep fuel (.expr precedenceLowest p) with
              | none => none
              | some (.perr er) => some (.perr er)
              | some (.ok (.expr expr) p) =>
                some (.ok (.stmt (.letS line col ⟨line, col, name⟩ expr)) p)
              | some (.ok _ _) => none
      | .breakT =>
        let line := p.curr.line
        let col := p.curr.col
        match readNextToken p with
        | .perr er => some (.perr er)
        | .ok _ p => some (.ok (.stmt (.breakS line col)) p)
      | .continueT =>
        let line := p.curr.line
        let col := p.curr.col
        match readNextToken p with
        | .perr er => some (.perr er)
        | .ok _ p => some (.ok (.stmt (.continueS line col)) p)
      | _ =>
        -- parseExpressionStatement
        let line := p.curr.line
        let col := p.curr.col
        match parseStep fuel (.expr precedenceLowest p) with
        | none => none
        | some (.perr er) => some (.perr er)
        | some (.ok (.expr expr) p) =>
          some (.ok (.stmt (.exprS line col expr)) p)
        | some (.ok _ _) => none

/-- `parseExpression` with its original signature. -/
def parseExpression (fuel : Nat) (precedence : Nat) (p : PSt) :
    PRes Expression :=
  match parseStep fuel (.expr precedence p) with
  | none => none
  | some (.perr e) => some (.perr e)
  | some (.ok (.expr e) p') => some (.ok e p')
  | some (.ok _ _) => none

/-- The infix parse dispatch with its original signature; the Bool is the
`ok` flag of the Go infix parse functions. -/
def parseInfixFn (fuel : Nat) (left : Expression) (currPrec : Nat) (p : PSt) :
    PRes (Expression × Bool) :=
  match parseStep fuel (.infixFn left currPrec p) with
  | none => none
  | some (.perr e) => some (.perr e)
  | some (.ok (.exprCont e cont) p') => some (.ok (e, cont) p')
  | some (.ok _ _) => none

/-- `parseStatement` with its original signature. -/
def parseStatement (fuel : Nat) (p : PSt) : PRes Statement :=
  match parseStep fuel (.stmtReq p) with
  | none => none
  | some (.perr e) => some (.perr e)
  | some (.ok (.stmt s) p') => some (.ok s p')
  | some (.ok _ _) => none

/-- `parseHashExpression` with its original signature. -/
def parseHashExpression (fuel : Nat) (p : PSt) : PRes Expression :=
  match parseStep fuel (.hashExpr p) with
  | none => none
  | some (.perr e) => some (.perr e)
  | some (.ok (.expr e) p') => some (.ok e p')
  | some (.ok _ _) => none

/-- The shared statement loop with its original signature. -/
def parseStmtsUntil (fuel : Nat) (stopTypes : List TokType)
    (acc : List Statement) (p : PSt) : PRes (List Statement) :=
  match parseStep fuel (.stmtsUntil stopTypes acc p) with
  | none => none
  | some (.perr e) => some (.perr e)
  | some (.ok (.stmts sts) p') => some (.ok sts p')
  | some (.ok _ _) => none

/-- `Parse` (parser/parser.go): initialize the two-token window with the
sentinel `startToken` and two reads, then parse statements until `EOF`. -/
def parseProgram (fuel : Nat) (tokens : List Token) :
    Option (Except PError Program) :=
  let p : PSt := { curr := startToken, next := startToken, stream := tokens }
  match readNextToken p with
  | .perr e => some (.error e)
  | .ok _ p =>
    match readNextToken p with
    | .perr e => some (.error e)
    | .ok _ p =>
      let line := p.curr.line
      let col := p.curr.col
      match parseStmtsUntil fuel [] [] p with
      | none => none
      | some (.perr e) => some (.error e)
      | some (.ok statements _) =>
        some (.ok { startLine := line, startCol := col, stmts := statements })

/-! ## Evaluator (evaluator/*.go)

The evaluator holds a current-scope pointer, a loop-depth counter and the
`breakRequested`/`continueRequested` flags; these form the explicit state
`EvSt`.  Since the evaluator only ever pushes children of the current
scope and every push is paired (via `defer`) with a restore of the old
scope pointer, restoring the old pointer is modelled as dropping the head
frame of the chain.

`ev.eval` post-composes every result with `normalize`, which widens all
integral values to `int64`; in this embedding `Value.vint` already denotes
`int64` (every integer producer — literals, arithmetic, rangers — yields
it), so `normalize` is the identity and is not written out.

`evalInfixExpression` exists in two revisions in the repository; the one
embedded here short-circuits both `&&` and `||` (the other revision
short-circuits only `&&`; it is embedded separately below as
`evalInfixStepNoOrSC` for comparison). -/

/-- An evaluation error `(line, column, message)` (evaluator/error.go).
Conversion errors from evaluator/convert.go carry no position; they are
wrapped by their callers, and the unreachable raw propagations use
position (0,0). -/
structure EvalError where
  line : Nat
  col : Nat
  msg : String
  deriving Repr, DecidableEq

/-- Evaluator configuration: the literal stringer
(`WithLiteralStringer`; default returns the string unchanged) and the
iteration-order oracle standing for Go's unspecified
`map[string]Expression` range order in `evalHashExpression`. -/
structure EvCfg where
  literalStringer : String → Except EvalError Value
  hashOrder : List (String × Expression) → List (String × Expression)

/-- `defaultLiteral` (evaluator/expression.go). -/
def defaultLiteralStringer (s : String) : Except EvalError Value :=
  .ok (.vstr s)

/-- A legal iteration-order oracle ranges over exactly the map's entries,
in some order. -/
def LegalOrder (ord : List (String × Expression) →
    List (String × Expression)) : Prop :=
  ∀ entries, (ord entries).Perm entries

/-- The mutable evaluator state (evaluator/eval.go). -/
structure EvSt where
  chain : ScopeChain
  loopLevel : Int
  breakRequested : Bool
  continueRequested : Bool
  deriving Repr

inductive EvOut (α : Type) where
  | ok (a : α)
  | err (e : EvalError)
  deriving Repr

/-- Evaluation result: `none` = out of fuel (modelling artifact); otherwise
the outcome together with the final state. -/
abbrev EvRes (α : Type) := Option (EvOut α × EvSt)

/-- Two's-complement wrap-around of Go `int64` arithmetic. -/
def wrap64 (z : Int) : Int := (z + 2 ^ 63) % 2 ^ 64 - 2 ^ 63

/-- `toInt64` (evaluator/convert.go): only values of reflect kind
`Int*` convert; in this universe that is `vint`. -/
def toInt64V : Value → Except String Int
  | .vint n => .ok n
  | .vnil => .error "cannot convert nil to int64"
  | _ => .error "cannot convert unsupported type to int64"

/-- `toString` (evaluator/convert.go): values of reflect kind `String` —
both plain strings and `SafeString`. -/
def toStringV : Value → Except String String
  | .vstr s => .ok s
  | .vsafe s => .ok s
  | .vnil => .error "cannot convert nil to string"
  | _ => .error "cannot convert unsupported type to string"

/-- `toBool` (evaluator/convert.go). -/
def toBoolV : Value → Except String Bool
  | .vbool b => .ok b
  | .vnil => .error "cannot convert nil to bool"
  | _ => .error "cannot convert unsupported type to bool"

/-- reflect kind test `Kind() == reflect.Bool` on a non-nil value. -/
def isBoolV : Value → Bool
  | .vbool _ => true
  | _ => false

/-- reflect kind test `Kind() == reflect.String` (true also of
`SafeString`). -/
def isStringV : Value → Bool
  | .vstr _ => true
  | .vsafe _ => true
  | _ => false

/-- reflect kind test `Kind() == reflect.Int64` (operands reaching the
infix switch have been normalized by `ev.eval`). -/
def isIntV : Value → Bool
  | .vint _ => true
  | _ => false

/-- `evalIntInfixExpression` (the integer arithmetic/comparison table;
division and modulo by zero are errors at the expression's position). -/
def evalIntInfix (l r : Int) (op : String) (line col : Nat) :
    Except EvalError Value :=
  if op = "==" then .ok (.vbool (l = r))
  else if op = "!=" then .ok (.vbool (l ≠ r))
  else if op = "<" then .ok (.vbool (l < r))
  else if op = "<=" then .ok (.vbool (l ≤ r))
  else if op = ">" then .ok (.vbool (l > r))
  else if op = ">=" then .ok (.vbool (l ≥ r))
  else if op = "+" then .ok (.vint (wrap64 (l + r)))
  else if op = "-" then .ok (.vint (wrap64 (l - r)))
  else if op = "*" then .ok (.vint (wrap64 (l * r)))
  else if op = "/" then
    if r = 0 then .error ⟨line, col, "division by zero"⟩
    else .ok (.vint (wrap64 (l.tdiv r)))
  else if op = "%" then
    if r = 0 then .error ⟨line, col, "division by zero"⟩
    else .ok (.vint (l.tmod r))
  else .error ⟨line, col, s!"unexpected operator in int infix expression: {op}"⟩

/-- `evalStringInfixExpression` — `+` returns the other side unchanged when
one side is empty; the result of `+` is always a plain string. -/
def evalStringInfix (l r : String) (op : String) (line col : Nat) :
    Except EvalError Value :=
  if op = "==" then .ok (.vbool (l = r))
  else if op = "!=" then .ok (.vbool (l ≠ r))
  else if op = "+" then
    if l = "" then .ok (.vstr r)
    else if r = "" then .ok (.vstr l)
    else .ok (.vstr (l ++ r))
  else .error ⟨line, col,
    s!"unexpected operator in string infix expression: {op}"⟩

/-- `evalBoolInfixExpression`. -/
def evalBoolInfix (l r : Bool) (op : String) (line col : Nat) :
    Except EvalError Value :=
  if op = "==" then .ok (.vbool (l = r))
  else if op = "!=" then .ok (.vbool (l ≠ r))
  else if op = "||" then .ok (.vbool (l || r))
  else if op = "&&" then .ok (.vbool (l && r))
  else .error ⟨line, col,
    s!"unexpected operator in bool infix expression: {op}"⟩

/-- The kind dispatch of `evalInfixExpression` after both operands are
evaluated (shared by both revisions of the function). -/
def evalInfixKinds (left right : Value) (op : String) (line col : Nat) :
    Except EvalError Value :=
  if isStringV left && isStringV right then
    match toStringV left, toStringV right with
    | .ok l, .ok r => evalStringInfix l r op line col
    | _, _ => .error ⟨0, 0, "unreachable string conversion failure"⟩
  else if isIntV left && isIntV right then
    match toInt64V left, toInt64V right with
    | .ok l, .ok r => evalIntInfix l r op line col
    | _, _ => .error ⟨0, 0, "unreachable int conversion failure"⟩
  else if isBoolV left && isBoolV right then
    match toBoolV left, toBoolV right with
    | .ok l, .ok r => evalBoolInfix l r op line col
    | _, _ => .error ⟨0, 0, "unreachable bool conversion failure"⟩
  else
    .error ⟨line, col,
      s!"cannot handle expression types in infix expression: {op}"⟩

/-- `evalMinusPrefix`. -/
def evalMinusPrefix (right : Value) (line col : Nat) : Except EvalError Value :=
  match toInt64V right with
  | .ok r => .ok (.vint (wrap64 (-r)))
  | .error _ => .error ⟨line, col,
      "incompatible expression type for minus prefix expression"⟩

/-- `evalBangPrefix`. -/
def evalBangPrefix (right : Value) (line col : Nat) : Except EvalError Value :=
  match toBoolV right with
  | .ok r => .ok (.vbool (!r))
  | .error _ => .error ⟨line, col,
      "incompatible expression type for bang prefix expression"⟩

/-- `toSingleOrSliceObject` (evaluator/expression.go): more than one value →
the slice; exactly one → that value; none → nil. -/
def toSingleOrSliceObject : List Value → Value
  | [] => .vnil
  | [o] => o
  | os => .vslice os

/-- `evalFieldExpressionHash` (evaluator/field_expression.go). -/
def evalFieldHash (entries : List (String × Value)) (name : String)
    (line col : Nat) : Except EvalError Value :=
  match lookupB entries name with
  | some v => .ok v
  | none => .error ⟨line, col, s!"key not found in map: {name}"⟩

/-- The reflection-based field/method dispatch of `evalFieldExpression` for
non-map callees, restricted to this value universe: `ranger.Status` is a
struct whose exported fields resolve; integers, booleans, plain strings
and slices have neither a field nor a method of any name; `SafeString`
and rangers do have methods, but a Go method value has no counterpart in
this universe, so those cases are marked as a modelling boundary (no
claim exercises them). -/
def evalFieldNative (callee : Value) (name : String) (line col : Nat) :
    Except EvalError Value :=
  match callee with
  | .vstatus st =>
    if name = "Index" then .ok (.vint st.index)
    else if name = "First" then .ok (.vbool st.first)
    else if name = "Last" then .ok (.vbool st.last)
    else if name = "Even" then .ok (.vbool st.even)
    else if name = "Odd" then .ok (.vbool st.odd)
    else if name = "HasMore" then .ok (.vbool st.hasMore)
    else .error ⟨line, col,
      s!"field or function not found in object: {name}"⟩
  | .vint _ | .vbool _ | .vstr _ | .vslice _ =>
    .error ⟨line, col, s!"field or function not found in object: {name}"⟩
  | _ =>
    .error ⟨line, col, "method values are outside the embedded value universe"⟩

set_option maxHeartbeats 2000000

mutual

/-- `evalExpression` (evaluator/expression.go), composed with the identity
`normalize`. -/
def evalExpr (cfg : EvCfg) : Nat → Expression → EvSt → EvRes Value
  | 0, _, _ => none
  | fuel + 1, e, st =>
    match e with
    | .nilLit _ _ => some (.ok .vnil, st)
    | .literal _ _ text =>
      -- evalLiteral: through the configured literal stringer
      match cfg.literalStringer text with
      | .ok v => some (.ok v, st)
      | .error er => some (.err er, st)
    | .intLit _ _ v => some (.ok (.vint v), st)
    | .boolLit _ _ b => some (.ok (.vbool b), st)
    | .stringLit _ _ s => some (.ok (.vstr s), st)
    | .identE line col name =>
      -- evalIdentExpression
      match scopeValue st.chain name with
      | some v => some (.ok v, st)
      | none =>
        some (.err ⟨line, col, s!"identifier not found in scope: {name}"⟩, st)
    | .prefixE line col op expr =>
      -- evalPrefixExpression; the `panic` on an unknown operator is
      -- unreachable for parser output and modelled as an error
      match evalExpr cfg fuel expr st with
      | none => none
      | some (.err er, st') => some (.err er, st')
      | some (.ok v, st') =>
        if op = "-" then
          match evalMinusPrefix v line col with
          | .ok o => some (.ok o, st')
          | .error er => some (.err er, st')
        else if op = "!" then
          match evalBangPrefix v line col with
          | .ok o => some (.ok o, st')
          | .error er => some (.err er, st')
        else
          some (.err ⟨line, col, s!"unknown prefix expression operator: {op}"⟩,
            st')
    | .infixE line col op left right =>
      -- evalInfixExpression (the revision with both short-circuits)
      match evalExpr cfg fuel left st with
      | none => none
      | some (.err er, st') => some (.err er, st')
      | some (.ok lv, st') =>
        if isBoolV lv && op = "&&" && lv matches .vbool false then
          some (.ok (.vbool false), st')
        else if isBoolV lv && op = "||" && lv matches .vbool true then
          some (.ok (.vbool true), st')
        else
          match evalExpr cfg fuel right st' with
          | none => none
          | some (.err er, st'') => some (.err er, st'')
          | some (.ok rv, st'') =>
            match evalInfixKinds lv rv op line col with
            | .ok o => some (.ok o, st'')
            | .error er => some (.err er, st'')
    | .ifE _ _ conditionals => evalConds cfg fuel conditionals st
    | .fieldE line col callee index =>
      -- evalFieldExpression
      match evalExpr cfg fuel index st with
      | none => none
      | some (.err er, st') => some (.err er, st')
      | some (.ok iv, st') =>
        match toStringV iv with
        | .error _ =>
          some (.err ⟨index.lineOf, index.colOf,
            "type of index expression in field expression is not string"⟩, st')
        | .ok name =>
          match evalExpr cfg fuel callee st' with
          | none => none
          | some (.err er, st'') => some (.err er, st'')
          | some (.ok cv, st'') =>
            match cv with
            | .vnil =>
              some (.err ⟨line, col,
                s!"cannot get field or function from nil object: {name}"⟩, st'')
            | .vmap entries =>
              match evalFieldHash entries name line col with
              | .ok o => some (.ok o, st'')
              | .error er => some (.err er, st'')
            | _ =>
              match evalFieldNative cv name line col with
              | .ok o => some (.ok o, st'')
              | .error er => some (.err er, st'')
    | .callE _ _ callee _ =>
      -- evalCallExpression: no value of this universe has reflect kind
      -- Func, so the call always fails the callee check after evaluating
      -- the callee
      match evalExpr cfg fuel callee st with
      | none => none
      | some (.err er, st') => some (.err er, st')
      | some (.ok _, st') =>
        some (.err ⟨callee.lineOf, callee.colOf,
          "callee expression in call expression is not a function"⟩, st')
    | .captureE _ _ body =>
      -- evalCaptureExpression
      match evalBlockCap cfg fuel body st with
      | none => none
      | some (.err er, st') => some (.err er, st')
      | some (.ok os, st') => some (.ok (toSingleOrSliceObject os), st')
    | .forE line col ident statusIdent rangeExpr body =>
      evalForExpr cfg fuel line col ident statusIdent rangeExpr body st
    | .hashE line col entries =>
      -- evalHashExpression: `for key, expr := range h.Values` ranges over a
      -- Go map; the oracle fixes one of the possible iteration orders
      evalHashEntriesE cfg fuel line col (cfg.hashOrder entries) [] st

/-- The conditional loop of `evalIfExpression`: the first conditional whose
condition is true (or absent) has its block evaluated in capture-all mode;
no conditional selected leaves the result nil. -/
def evalConds (cfg : EvCfg) : Nat → List ConditionalBlock → EvSt → EvRes Value
  | 0, _, _ => none
  | _ + 1, [], st => some (.ok .vnil, st)
  | fuel + 1, .mk _ _ condition block :: rest, st =>
    let condRes : EvRes Bool :=
      match condition with
      | none => some (.ok true, st)
      | some ce =>
        match evalExpr cfg fuel ce st with
        | none => none
        | some (.err er, st') => some (.err er, st')
        | some (.ok v, st') =>
          match toBoolV v with
          | .ok b => some (.ok b, st')
          | .error _ =>
            some (.err ⟨ce.lineOf, ce.colOf,
              "condition expression type in if expression is not bool"⟩, st')
    match condRes with
    | none => none
    | some (.err er, st') => some (.err er, st')
    | some (.ok cond, st') =>
      if cond then
        match evalBlockCap cfg fuel block st' with
        | none => none
        | some (.err er, st'') => some (.err er, st'')
        | some (.ok os, st'') => some (.ok (toSingleOrSliceObject os), st'')
      else evalConds cfg fuel rest st'

/-- `evalForExpression` (evaluator/expression.go). -/
def evalForExpr (cfg : EvCfg) (fuel : Nat) (_line _col : Nat) (ident : IdentE)
    (statusIdent : Option IdentE) (rangeExpr : Expression) (body : Block)
    (st : EvSt) : EvRes Value :=
  match fuel with
  | 0 => none
  | fuel + 1 =>
    let name := ident.name
    if scopeHasValue st.chain name then
      some (.err ⟨ident.startLine, ident.startCol,
        s!"identifier in for statement already in use: {name}"⟩, st)
    else
      let statusName := statusIdent.map (·.name)
      if statusName.isSome && scopeHasValue st.chain (statusName.getD "") then
        some (.err ⟨ident.startLine, ident.startCol,
          "status identifier in for statement already in use"⟩, st)
      else
        match evalExpr cfg fuel rangeExpr st with
        | none => none
        | some (.err er, st') => some (.err er, st')
        | some (.ok r, st') =>
          match r, st' with
          | .vranger rg, ⟨chain0, ll0, br0, cr0⟩ =>
            -- push the loop scope, increment the loop depth; the deferred
            -- restore pops the scope and decrements the depth on all paths
            let st' : EvSt := ⟨⟨[], false⟩ :: chain0, ll0 + 1, br0, cr0⟩
            match evalForLoop cfg fuel name statusName rg body [] st' with
            | none => none
            | some (out, ⟨chain, ll, br, cr⟩) =>
              let st'' : EvSt := ⟨chain.tail, ll - 1, br, cr⟩
              match out with
              | .err er => some (.err er, st'')
              | .ok os => some (.ok (toSingleOrSliceObject os), st'')
          | _, st' =>
            some (.err ⟨rangeExpr.lineOf, rangeExpr.colOf,
              "range expression in for statement did not produce a ranger"⟩,
              st')

/-- The iteration loop of `evalForExpression`: per iteration, clear the
loop scope, bind the value (and the status if requested), evaluate the
block in capture-all mode, append its values; honor `break` and
`continue`. -/
def evalForLoop (cfg : EvCfg) (fuel : Nat) (name : String)
    (statusName : Option String) (rg : IntRanger) (body : Block)
    (os : List Value) (st : EvSt) : Option (EvOut (List Value) × EvSt) :=
  match fuel with
  | 0 => none
  | fuel + 1 =>
    match rg.next with
    | (false, _) => some (.ok os, st)
    | (true, rg) =>
      let v := rg.value
      match st with
      | ⟨chain, ll, br, cr⟩ =>
      let chain := scopeClearSelf chain
      let chain := scopeSet chain name v
      let chain :=
        match statusName with
        | some sn => scopeSet chain sn (.vstatus rg.status)
        | none => chain
      let st : EvSt := ⟨chain, ll, br, cr⟩
      match evalBlockCap cfg fuel body st with
      | none => none
      | some (.err er, st') => some (.err er, st')
      | some (.ok loopOs, ⟨chain, ll, br, cr⟩) =>
        let os := os ++ loopOs
        if br then
          some (.ok os, ⟨chain, ll, false, cr⟩)
        else
          evalForLoop cfg fuel name statusName rg body os ⟨chain, ll, br, false⟩

/-- The entry loop of `evalHashExpression`: each value expression is
evaluated once; a duplicate key (impossible for parser output) is an
error; the resulting mapping's entries are keyed by the parsed string
keys. -/
def evalHashEntriesE (cfg : EvCfg) (fuel : Nat) (line col : Nat)
    (todo : List (String × Expression)) (values : List (String × Value))
    (st : EvSt) : EvRes Value :=
  match fuel with
  | 0 => none
  | fuel + 1 =>
    match todo with
    | [] => some (.ok (.vmap values), st)
    | (key, expr) :: rest =>
      if containsB values key then
        some (.err ⟨line, col,
          s!"duplicate key in hash expression: {key}"⟩, st)
      else
        match evalExpr cfg fuel expr st with
        | none => none
        | some (.err er, st') => some (.err er, st')
        | some (.ok v, st') =>
          evalHashEntriesE cfg fuel line col rest (values ++ [(key, v)]) st'

/-- `evalBlockCaptureAll` (evaluator/program.go): push a fresh child scope,
evaluate the statements in capture-all mode, restore the previous scope on
every exit path. -/
def evalBlockCap (cfg : EvCfg) (fuel : Nat) (b : Block) (st : EvSt) :
    Option (EvOut (List Value) × EvSt) :=
  match fuel with
  | 0 => none
  | fuel + 1 =>
    let st := { st with chain := ⟨[], false⟩ :: st.chain }
    match evalStmtsCap cfg fuel b.stmts st with
    | none => none
    | some (out, ⟨chain, ll, br, cr⟩) => some (out, ⟨chain.tail, ll, br, cr⟩)

/-- `evalStatementsCaptureAll` (evaluator/program.go): the result slice is
pre-sized to the number of statements (`make([]interface{}, len(st))`), so
a `break`/`continue` leaves the current and the remaining slots nil; a
`break`/`continue` at loop depth zero is an error at the statement's
position. -/
def evalStmtsCap (cfg : EvCfg) (fuel : Nat) (sts : List Statement)
    (st : EvSt) : Option (EvOut (List Value) × EvSt) :=
  match fuel with
  | 0 => none
  | fuel + 1 =>
    match sts with
    | [] => some (.ok [], st)
    | s :: rest =>
      match evalStmt cfg fuel s st with
      | none => none
      | some (.err er, st') => some (.err er, st')
      | some (.ok o, ⟨chain, ll, br, cr⟩) =>
        if br then
          if ll ≤ 0 then
            some (.err ⟨s.lineOf, s.colOf, "break outside of loop"⟩,
              ⟨chain, ll, br, cr⟩)
          else
            some (.ok (.vnil :: rest.map fun _ => .vnil), ⟨chain, ll, br, cr⟩)
        else if cr then
          if ll ≤ 0 then
            some (.err ⟨s.lineOf, s.colOf, "continue outside of loop"⟩,
              ⟨chain, ll, br, cr⟩)
          else
            some (.ok (.vnil :: rest.map fun _ => .vnil), ⟨chain, ll, br, cr⟩)
        else
          match evalStmtsCap cfg fuel rest ⟨chain, ll, br, cr⟩ with
          | none => none
          | some (.err er, st'') => some (.err er, st'')
          | some (.ok os, st'') => some (.ok (o :: os), st'')

/-- `evalStatement` (evaluator/program.go); the `panic` on an unknown
statement type cannot arise in a closed sum. -/
def evalStmt (cfg : EvCfg) (fuel : Nat) (s : Statement) (st : EvSt) :
    EvRes Value :=
  match fuel with
  | 0 => none
  | fuel + 1 =>
    match s with
    | .exprS _ _ e => evalExpr cfg fuel e st
    | .letS _ _ ident e =>
      -- evalLetStatement: evaluate, then Set in the current scope chain;
      -- the statement's own value is nil
      match evalExpr cfg fuel e st with
      | none => none
      | some (.err er, st') => some (.err er, st')
      | some (.ok v, ⟨chain, ll, br, cr⟩) =>
        some (.ok .vnil, ⟨scopeSet chain ident.name v, ll, br, cr⟩)
    | .breakS _ _ => some (.ok .vnil, { st with breakRequested := true })
    | .continueS _ _ => some (.ok .vnil, { st with continueRequested := true })

end

/-- `evalStatements` (evaluator/program.go): capture all statement values,
return the last one (nil if there are none). -/
def evalStmtsLast (cfg : EvCfg) (fuel : Nat) (sts : List Statement)
    (st : EvSt) : EvRes Value :=
  match evalStmtsCap cfg fuel sts st with
  | none => none
  | some (.err er, st') => some (.err er, st')
  | some (.ok os, st') => some (.ok (os.getLastD .vnil), st')

/-- `evalProgram` = `evalStatements` over the program's statements; no
scope is pushed at the program level. -/
def evalProgram (cfg : EvCfg) (fuel : Nat) (p : Program) (st : EvSt) :
    EvRes Value :=
  evalStmtsLast cfg fuel p.stmts st

/-- `Evaluator.Eval(n, s)` for a program node: fresh flags, loop depth 0,
current scope `s`. -/
def evalTop (cfg : EvCfg) (fuel : Nat) (p : Program) (chain : ScopeChain) :
    EvRes Value :=
  evalProgram cfg fuel p
    { chain := chain, loopLevel := 0,
      breakRequested := false, continueRequested := false }

/-- The other revision of `evalInfixExpression` in the repository: only
`&&` short-circuits; with a `true` left operand of `||` the right operand
is still evaluated.  Expressed as a function of the already-evaluated left
operand and the evaluation of the right operand (the evaluations
themselves are shared with the main evaluator). -/
def evalInfixStepNoOrSC (lv : Value) (evalRight : EvSt → EvRes Value)
    (op : String) (line col : Nat) (st : EvSt) : EvRes Value :=
  if isBoolV lv && op = "&&" && lv matches .vbool false then
    some (.ok (.vbool false), st)
  else
    match evalRight st with
    | none => none
    | some (.err er, st') => some (.err er, st')
    | some (.ok rv, st') =>
      match evalInfixKinds lv rv op line col with
      | .ok o => some (.ok o, st')
      | .error er => some (.err er, st')

/-! ## Render adapter (template/renderer.go) -/

/-- The literal stringer installed by the renderer: wraps template text in
`SafeString` without further escaping. -/
def renderLiteralStringer (s : String) : Except EvalError Value :=
  .ok (.vsafe s)

/-- `capture` + the program rewrite in `render` (template/renderer.go): wrap
the parsed program's statements in a single capture expression statement.
The Go composite literals leave all positions zero-valued. -/
def wrapCapture (prog : Program) : Program :=
  { startLine := 0, startCol := 0,
    stmts := [.exprS 0 0 (.captureE 0 0 (.mk 0 0 prog.stmts))] }

/-- A pipeline error: from the parser or from the evaluator.  (The
state-machine lexer reports errors only for I/O failures, which are not
modelled.) -/
inductive RenderError where
  | parse (e : PError)
  | eval (e : EvalError)
  deriving Repr, DecidableEq

/-- `render` + `Render` (template/renderer.go): lex (starting in literal
mode), parse, wrap in a capture, evaluate with the SafeString literal
stringer against the given scope chain, and write the result out.  The
returned string is the byte stream written to the output writer. -/
def renderTemplate (ord : List (String × Expression) →
    List (String × Expression)) (fuel : Nat) (input : String)
    (chain : ScopeChain) : Option (Except RenderError String) :=
  match lexTokens false fuel input with
  | none => none
  | some tokens =>
    match parseProgram fuel tokens with
    | none => none
    | some (.error e) => some (.error (.parse e))
    | some (.ok prog) =>
      let cfg : EvCfg :=
        { literalStringer := renderLiteralStringer, hashOrder := ord }
      match evalTop cfg fuel (wrapCapture prog) chain with
      | none => none
      | some (.err e, _) => some (.error (.eval e))
      | some (.ok v, _) => some (.ok (renderWrite v))

/-! ## Shared test harness definitions -/

/-- The evaluator configuration of `evaluator.New()` with no options: the
default literal stringer; the iteration-order oracle `ord` stands for one
possible Go map iteration order. -/
def evalCfg (ord : List (String × Expression) → List (String × Expression)) :
    EvCfg :=
  { literalStringer := defaultLiteralStringer, hashOrder := ord }

/-- The harness of evaluator/eval_test.go: lex a source starting in code
mode, parse it, and evaluate the program against a scope (reporting only
the outcome). -/
def evalSourceOrd (ord : List (String × Expression) →
    List (String × Expression)) (fuel : Nat) (src : String)
    (chain : ScopeChain) : Option (EvOut Value) :=
  match lexTokens true fuel src with
  | none => none
  | some tokens =>
    match parseProgram fuel tokens with
    | none => none
    | some (.error _) => none
    | some (.ok prog) => (evalTop (evalCfg ord) fuel prog chain).map Prod.fst

/-- `evalSourceOrd` with the identity iteration order. -/
def evalSource (fuel : Nat) (src : String) (chain : ScopeChain) :
    Option (EvOut Value) :=
  evalSourceOrd id fuel src chain

/-! ## Helper lemmas about the scope store -/

/-- Looking up the key just set always yields the new value. -/
theorem lookupB_setB_self (b : Bindings) (name : String) (v : Value) :
    lookupB (setB b name v) name = some v := by
  induction b with
  | nil => simp [setB, lookupB]
  | cons kv rest ih =>
    obtain ⟨k, w⟩ := kv
    by_cases h : k = name
    · simp [setB, lookupB, h]
    · simp [setB, lookupB, h, ih]

/-- Setting an existing key does not change the number of bindings. -/
theorem setB_length_of_contains (b : Bindings) (name : String) (v : Value)
    (h : containsB b name = true) : (setB b name v).length = b.length := by
  induction b with
  | nil => simp [containsB, lookupB] at h
  | cons kv rest ih =>
    obtain ⟨k, w⟩ := kv
    by_cases hk : k = name
    · simp [setB, hk]
    · simp only [containsB, lookupB, hk, if_neg, ite_false] at h
      simp [setB, hk, ih h]

/-- The parent walk of `Set` locates the nearest ancestor binding the name
and rewrites exactly that frame. -/
theorem setAncestors_split (pre : List Frame) (binder : Frame)
    (post : List Frame) (name : String) (v : Value)
    (hpre : ∀ f ∈ pre, hasValueSelf f name = false)
    (hbind : hasValueSelf binder name = true) :
    setAncestors (pre ++ binder :: post) name v =
      some (pre ++ { binder with values := setB binder.values name v } :: post) := by
  induction pre with
  | nil => simp [setAncestors, hbind]
  | cons f rest ih =>
    have hf : hasValueSelf f name = false := hpre f (by simp)
    have hrest : ∀ g ∈ rest, hasValueSelf g name = false := by
      intro g hg; exact hpre g (by simp [hg])
    simp [setAncestors, hf, ih hrest]

/-- If no ancestor binds the name, the parent walk fails. -/
theorem setAncestors_none (anc : List Frame) (name : String) (v : Value)
    (h : ∀ f ∈ anc, hasValueSelf f name = false) :
    setAncestors anc name v = none := by
  induction anc with
  | nil => simp [setAncestors]
  | cons f rest ih =>
    have hf : hasValueSelf f name = false := h f (by simp)
    have hrest : ∀ g ∈ rest, hasValueSelf g name = false := by
      intro g hg; exact h g (by simp [hg])
    simp [setAncestors, hf, ih hrest]

/-- If some ancestor binds the name, the parent walk succeeds. -/
theorem setAncestors_isSome (anc : List Frame) (name : String) (v : Value)
    (h : ∃ f ∈ anc, hasValueSelf f name = true) :
    (setAncestors anc name v).isSome := by
  induction anc with
  | nil => simp at h
  | cons f rest ih =>
    by_cases hf : hasValueSelf f name = true
    · simp [setAncestors, hf]
    · have hf' : hasValueSelf f name = false := by simpa using hf
      obtain ⟨g, hg, hgv⟩ := h
      rcases List.mem_cons.mp hg with rfl | hg
      · exact absurd hgv hf
      · have hr := ih ⟨g, hg, hgv⟩
        simp only [setAncestors, hf', Bool.false_eq_true, if_false]
        cases hsa : setAncestors rest name v with
        | none => rw [hsa] at hr; simp at hr
        | some rest' => simp

/-- Relabelling the `locked` flags of a list of frames (used to express
that `Set` never reads an ancestor's flag).  A shorter flag list leaves
the remaining frames unchanged. -/
def withLocks : List Frame → List Bool → List Frame
  | f :: fs, b :: bs => { f with locked := b } :: withLocks fs bs
  | fs, [] => fs
  | [], _ :: _ => []

/-- The parent walk never reads a `locked` flag: relabelling the flags
commutes with it, up to the relabelled flags of the result. -/
theorem setAncestors_withLocks (anc : List Frame) (bs : List Bool)
    (name : String) (v : Value) :
    setAncestors (withLocks anc bs) name v =
      (setAncestors anc name v).map (withLocks · bs) := by
  induction anc generalizing bs with
  | nil => cases bs <;> simp [withLocks, setAncestors]
  | cons f rest ih =>
    cases bs with
    | nil =>
      simp only [withLocks]
      cases setAncestors (f :: rest) name v <;> simp [withLocks]
    | cons b bs =>
      simp only [withLocks, setAncestors]
      by_cases hf : hasValueSelf f name = true
      · have : hasValueSelf { f with locked := b } name = true := hf
        simp [hf, this, withLocks]
      · have hf' : hasValueSelf f name = false := by simpa using hf
        have hfb : hasValueSelf { f with locked := b } name = false := hf'
        simp only [hf', hfb, Bool.false_eq_true, if_false, ih bs]
        cases setAncestors rest name v <;> simp [withLocks]

/-! ## C1 -/

/-- **C1.** For every value produced by evaluating a rendered program, the
renderer's flattening (`expectSafe`, applied by `write`/`writeSingle`)
writes: nothing for nil; the wrapped bytes for a `SafeString`; each
element recursively for a sequence; nothing for an empty plain string; and
the literal bytes `!UNSAFE!` for any non-empty plain string or any other
value kind.  The first conjunct records that the top-level `write`
produces exactly the flattening. -/
theorem renderer_flattening_spec :
    (∀ v, renderWrite v = expectSafe v) ∧
    expectSafe .vnil = "" ∧
    (∀ s, expectSafe (.vsafe s) = s) ∧
    expectSafe (.vslice []) = "" ∧
    (∀ v vs, expectSafe (.vslice (v :: vs)) =
      expectSafe v ++ expectSafe (.vslice vs)) ∧
    expectSafe (.vstr "") = "" ∧
    (∀ s, s ≠ "" → expectSafe (.vstr s) = "!UNSAFE!") ∧
    (∀ n, expectSafe (.vint n) = "!UNSAFE!") ∧
    (∀ b, expectSafe (.vbool b) = "!UNSAFE!") ∧
    (∀ m, expectSafe (.vmap m) = "!UNSAFE!") ∧
    (∀ r, expectSafe (.vranger r) = "!UNSAFE!") ∧
    (∀ st, expectSafe (.vstatus st) = "!UNSAFE!") := by
  refine ⟨?_, ?_, ?_, ?_, ?_, ?_, ?_, ?_, ?_, ?_, ?_, ?_⟩
  · intro v; cases v <;> simp [renderWrite, expectSafe]
  · simp [expectSafe]
  · intro s; simp [expectSafe]
  · simp [expectSafe, expectSafeList]
  · intro v vs; simp [expectSafe, expectSafeList]
  · simp [expectSafe]
  · intro s hs; simp [expectSafe, hs]
  · intro n; simp [expectSafe]
  · intro b; simp [expectSafe]
  · intro m; simp [expectSafe]
  · intro r; simp [expectSafe]
  · intro st; simp [expectSafe]

/-- Witness for C1 at the non-empty plain string `"x"`. -/
theorem renderer_flattening_spec_witness :
    ("x" : String) ≠ "" ∧ expectSafe (.vstr "x") = "!UNSAFE!" :=
  ⟨by decide, renderer_flattening_spec.2.2.2.2.2.2.1 "x" (by decide)⟩

/-! ## C2 -/

/-- **C2.** For every scope `s` (modelled with its ancestor chain), name
and value `v`: if some ancestor of `s` already binds the name — the chain
of ancestors splits as `pre ++ binder :: post` with no frame of `pre`
binding it — then `Set` overwrites the binding in that nearest ancestor,
leaves the number of bindings at every scope unchanged, and a subsequent
`Value` on that ancestor returns `v`; if no ancestor binds the name, the
binding is created in `s` itself unless `s` is locked, in which case `Set`
is a silent no-op. -/
theorem scope_set_shadowing_spec
    (s : Frame) (pre : List Frame) (binder : Frame) (post : List Frame)
    (anc : List Frame) (name : String) (v : Value) :
    ((∀ f ∈ pre, hasValueSelf f name = false) →
      hasValueSelf binder name = true →
      scopeSet (s :: (pre ++ binder :: post)) name v =
        s :: (pre ++ { binder with values := setB binder.values name v } :: post) ∧
      (scopeSet (s :: (pre ++ binder :: post)) name v).map
          (fun f => f.values.length) =
        (s :: (pre ++ binder :: post)).map (fun f => f.values.length) ∧
      scopeValue ((scopeSet (s :: (pre ++ binder :: post)) name v).drop
        (pre.length + 1)) name = some v) ∧
    ((∀ f ∈ anc, hasValueSelf f name = false) → s.locked = false →
      scopeSet (s :: anc) name v =
        { s with values := setB s.values name v } :: anc) ∧
    ((∀ f ∈ anc, hasValueSelf f name = false) → s.locked = true →
      scopeSet (s :: anc) name v = s :: anc) := by
  refine ⟨?_, ?_, ?_⟩
  · intro hpre hbind
    have hset := setAncestors_split pre binder post name v hpre hbind
    have heq : scopeSet (s :: (pre ++ binder :: post)) name v =
        s :: (pre ++ { binder with values := setB binder.values name v } :: post) := by
      simp [scopeSet, hset]
    refine ⟨heq, ?_, ?_⟩
    · rw [heq]
      simp [setB_length_of_contains binder.values name v hbind]
    · rw [heq]
      rw [List.drop_succ_cons, List.drop_left]
      simp [scopeValue, lookupB_setB_self]
  · intro hanc hlock
    simp [scopeSet, setAncestors_none anc name v hanc, hlock]
  · intro hanc hlock
    simp [scopeSet, setAncestors_none anc name v hanc, hlock]

/-- Witness for C2: a two-frame chain where the parent binds `"x"`
(overwritten in place, counts unchanged, parent `Value` sees the update),
and one-frame chains for the created-in-self and locked-no-op cases. -/
theorem scope_set_shadowing_spec_witness :
    (scopeSet [⟨[("y", .vint 7)], false⟩, ⟨[("x", .vint 1)], false⟩] "x" (.vint 2) =
      [⟨[("y", .vint 7)], false⟩, ⟨[("x", .vint 2)], false⟩] ∧
     (scopeSet [⟨[("y", .vint 7)], false⟩, ⟨[("x", .vint 1)], false⟩] "x"
        (.vint 2)).map (fun f => f.values.length) = [1, 1] ∧
     scopeValue ((scopeSet [⟨[("y", .vint 7)], false⟩, ⟨[("x", .vint 1)], false⟩]
        "x" (.vint 2)).drop 1) "x" = some (.vint 2)) ∧
    scopeSet [⟨[], false⟩] "x" (.vint 2) = [⟨[("x", .vint 2)], false⟩] ∧
    scopeSet [⟨[], true⟩] "x" (.vint 2) = [⟨[], true⟩] := by
  have ha := (scope_set_shadowing_spec ⟨[("y", .vint 7)], false⟩ []
    ⟨[("x", .vint 1)], false⟩ [] [] "x" (.vint 2)).1 (by simp) rfl
  have hb := (scope_set_shadowing_spec (⟨[], false⟩ : Frame) [] ⟨[], false⟩ []
    [] "x" (.vint 2)).2.1 (by simp) rfl
  have hc := (scope_set_shadowing_spec (⟨[], true⟩ : Frame) [] ⟨[], false⟩ []
    [] "x" (.vint 2)).2.2 (by simp) rfl
  exact ⟨⟨ha.1, ha.2.1, ha.2.2⟩, hb, hc⟩

/-- Relabelling lock flags never changes the frames' bindings. -/
theorem withLocks_map_values (anc : List Frame) (bs : List Bool) :
    (withLocks anc bs).map (fun f => f.values) =
      anc.map (fun f => f.values) := by
  induction anc generalizing bs with
  | nil => cases bs <;> simp [withLocks]
  | cons f rest ih =>
    cases bs with
    | nil => simp [withLocks]
    | cons b bs => simp [withLocks, ih bs]

/-! ## C10 -/

/-- **C10.** `Scope.Set` consults the `locked` flag only of the scope it is
called on: (i) relabelling the `locked` flags of all ancestors arbitrarily
never changes the bindings of any frame in the result of `Set`; (ii) when
the ancestor chain splits as `pre ++ binder :: post` with the nearest
binding ancestor `binder` locked, `Set` still overwrites the binding there
and a `Value` on that ancestor returns `v`; (iii) locking a scope has no
effect on a `Set` call that resolves to an ancestor — `Lock` only prevents
the creation of new bindings through `Set` calls on that scope itself. -/
theorem scope_set_lock_scope_only :
    (∀ (s : Frame) (anc : List Frame) (bs : List Bool) (name : String)
        (v : Value),
      (scopeSet (s :: withLocks anc bs) name v).map (fun f => f.values) =
        (scopeSet (s :: anc) name v).map (fun f => f.values)) ∧
    (∀ (s : Frame) (pre : List Frame) (binder : Frame) (post : List Frame)
        (name : String) (v : Value),
      (∀ f ∈ pre, hasValueSelf f name = false) →
      hasValueSelf binder name = true →
      binder.locked = true →
      scopeValue ((scopeSet (s :: (pre ++ binder :: post)) name v).drop
        (pre.length + 1)) name = some v) ∧
    (∀ (s : Frame) (anc : List Frame) (name : String) (v : Value),
      (∃ f ∈ anc, hasValueSelf f name = true) →
      scopeSet ({ s with locked := true } :: anc) name v =
        { s with locked := true } ::
          (scopeSet (s :: anc) name v).tail) := by
  refine ⟨?_, ?_, ?_⟩
  · intro s anc bs name v
    have h := setAncestors_withLocks anc bs name v
    cases hsa : setAncestors anc name v with
    | none =>
      rw [hsa] at h
      simp only [Option.map_none'] at h
      by_cases hl : s.locked = true <;>
        simp [scopeSet, h, hsa, hl, withLocks_map_values]
    | some anc' =>
      rw [hsa] at h
      simp only [Option.map_some'] at h
      simp [scopeSet, h, hsa, withLocks_map_values]
  · intro s pre binder post name v hpre hbind _
    exact ((scope_set_shadowing_spec s pre binder post [] name v).1
      hpre hbind).2.2
  · intro s anc name v h
    have hs := setAncestors_isSome anc name v h
    cases hsa : setAncestors anc name v with
    | none => rw [hsa] at hs; simp at hs
    | some anc' => simp [scopeSet, hsa]

/-- Witness for C10: the nearest binding ancestor is locked and is still
overwritten; relabelling ancestor flags leaves the bindings unchanged;
locking the child does not affect a `Set` that resolves to the parent. -/
theorem scope_set_lock_scope_only_witness :
    (scopeSet [⟨[], false⟩, ⟨[("x", .vint 1)], true⟩] "x" (.vint 2)).map
        (fun f => f.values) =
      (scopeSet [⟨[], false⟩, ⟨[("x", .vint 1)], false⟩] "x" (.vint 2)).map
        (fun f => f.values) ∧
    scopeValue ((scopeSet [⟨[], false⟩, ⟨[("x", .vint 1)], true⟩] "x"
      (.vint 2)).drop 1) "x" = some (.vint 2) ∧
    scopeSet [⟨[], true⟩, ⟨[("x", .vint 1)], true⟩] "x" (.vint 2) =
      [⟨[], true⟩, ⟨[("x", .vint 2)], true⟩] := by
  have h1 := scope_set_lock_scope_only.1 ⟨[], false⟩ [⟨[("x", .vint 1)], false⟩]
    [true] "x" (.vint 2)
  have h2 := scope_set_lock_scope_only.2.1 ⟨[], false⟩ []
    ⟨[("x", .vint 1)], true⟩ [] "x" (.vint 2) (by simp) rfl rfl
  have h3 := scope_set_lock_scope_only.2.2 ⟨[], false⟩
    [⟨[("x", .vint 1)], true⟩] "x" (.vint 2)
    ⟨⟨[("x", .vint 1)], true⟩, by simp, rfl⟩
  refine ⟨?_, h2, ?_⟩
  · simpa [withLocks] using h1
  · simp only [List.tail_cons] at h3
    rw [h3]
    rfl

/-! ## C4 -/

/-- The empty evaluator state over an empty root scope. -/
def emptyEvSt : EvSt :=
  { chain := [⟨[], false⟩], loopLevel := 0,
    breakRequested := false, continueRequested := false }

/-- **C4.** For every infix expression with operator `&&` whose left
operand evaluates to `false`, and every infix expression with operator
`||` whose left operand evaluates to `true`, the right operand is not
evaluated and the result is `false` (for `&&`) or `true` (for `||`): the
result and final state are those reached after the left operand, for
*every* right operand — in particular an erroring right operand has no
effect. -/
theorem infix_short_circuit_spec :
    (∀ cfg fuel l r st st' line col,
      evalExpr cfg fuel l st = some (.ok (.vbool false), st') →
      evalExpr cfg (fuel + 1) (.infixE line col "&&" l r) st =
        some (.ok (.vbool false), st')) ∧
    (∀ cfg fuel l r st st' line col,
      evalExpr cfg fuel l st = some (.ok (.vbool true), st') →
      evalExpr cfg (fuel + 1) (.infixE line col "||" l r) st =
        some (.ok (.vbool true), st')) ∧
    (∀ cfg fuel l r r' st st' line col,
      evalExpr cfg fuel l st = some (.ok (.vbool false), st') →
      evalExpr cfg (fuel + 1) (.infixE line col "&&" l r) st =
        evalExpr cfg (fuel + 1) (.infixE line col "&&" l r') st) ∧
    (∀ cfg fuel l r r' st st' line col,
      evalExpr cfg fuel l st = some (.ok (.vbool true), st') →
      evalExpr cfg (fuel + 1) (.infixE line col "||" l r) st =
        evalExpr cfg (fuel + 1) (.infixE line col "||" l r') st) := by
  have hand : ∀ (cfg : EvCfg) fuel l r st st' line col,
      evalExpr cfg fuel l st = some (.ok (.vbool false), st') →
      evalExpr cfg (fuel + 1) (.infixE line col "&&" l r) st =
        some (.ok (.vbool false), st') := by
    intro cfg fuel l r st st' line col h
    simp [evalExpr, h, isBoolV]
  have hor : ∀ (cfg : EvCfg) fuel l r st st' line col,
      evalExpr cfg fuel l st = some (.ok (.vbool true), st') →
      evalExpr cfg (fuel + 1) (.infixE line col "||" l r) st =
        some (.ok (.vbool true), st') := by
    intro cfg fuel l r st st' line col h
    simp [evalExpr, h, isBoolV]
  refine ⟨hand, hor, ?_, ?_⟩
  · intro cfg fuel l r r' st st' line col h
    rw [hand cfg fuel l r st st' line col h,
      hand cfg fuel l r' st st' line col h]
  · intro cfg fuel l r r' st st' line col h
    rw [hor cfg fuel l r st st' line col h,
      hor cfg fuel l r' st st' line col h]

/-- Witness for C4: `false && boom` and `true || boom` with `boom` an
unbound identifier whose evaluation would error. -/
theorem infix_short_circuit_spec_witness :
    evalExpr (evalCfg id) 1 (.boolLit 1 1 false) emptyEvSt =
      some (.ok (.vbool false), emptyEvSt) ∧
    evalExpr (evalCfg id) 2
        (.infixE 1 1 "&&" (.boolLit 1 1 false) (.identE 1 10 "boom"))
        emptyEvSt =
      some (.ok (.vbool false), emptyEvSt) ∧
    evalExpr (evalCfg id) 2
        (.infixE 1 1 "||" (.boolLit 1 1 true) (.identE 1 10 "boom"))
        emptyEvSt =
      some (.ok (.vbool true), emptyEvSt) :=
  ⟨rfl,
   infix_short_circuit_spec.1 (evalCfg id) 1 (.boolLit 1 1 false)
     (.identE 1 10 "boom") emptyEvSt emptyEvSt 1 1 rfl,
   infix_short_circuit_spec.2.1 (evalCfg id) 1 (.boolLit 1 1 true)
     (.identE 1 10 "boom") emptyEvSt emptyEvSt 1 1 rfl⟩

/-! ## C5 -/

/-- The token streams and parses of the C5 boundary examples. -/
def ifTrueToks : List Token :=
  [⟨.ifT, "if", 1, 1⟩, ⟨.trueT, "true", 1, 4⟩, ⟨.stringT, "x", 1, 9⟩,
   ⟨.endT, "end", 1, 13⟩, ⟨.eofT, "", 1, 16⟩]

def ifTrueProg : Program :=
  { startLine := 1, startCol := 1, stmts := [.exprS 1 1 (.ifE 1 1
      [.mk 1 1 (some (.boolLit 1 4 true))
        (.mk 1 9 [.exprS 1 9 (.stringLit 1 9 "x")])])] }

def ifFalseToks : List Token :=
  [⟨.ifT, "if", 1, 1⟩, ⟨.falseT, "false", 1, 4⟩, ⟨.stringT, "x", 1, 10⟩,
   ⟨.endT, "end", 1, 14⟩, ⟨.eofT, "", 1, 17⟩]

def ifFalseProg : Program :=
  { startLine := 1, startCol := 1, stmts := [.exprS 1 1 (.ifE 1 1
      [.mk 1 1 (some (.boolLit 1 4 false))
        (.mk 1 10 [.exprS 1 10 (.stringLit 1 10 "x")])])] }

theorem ifTrue_lex : lexTokens true 25 "if true \"x\" end" = some ifTrueToks :=
  rfl

theorem ifTrue_parse : parseProgram 25 ifTrueToks = some (.ok ifTrueProg) :=
  rfl

theorem ifFalse_lex :
    lexTokens true 25 "if false \"x\" end" = some ifFalseToks := rfl

theorem ifFalse_parse : parseProgram 25 ifFalseToks = some (.ok ifFalseProg) :=
  rfl

/-- **C5.** For every if expression, the conditionals are evaluated in
order and the first whose condition evaluates to `true` (or whose
condition is absent — the `else` case) has its block evaluated in
capture-all mode; the if expression's value is the single/sequence
collapse of the captured list (empty → nil; one element → that element;
more → the sequence).  In particular `if true "x" end` evaluates to `"x"`
and `if false "x" end` evaluates to nil. -/
theorem if_expression_spec :
    (∀ cfg fuel line col conds st,
      evalExpr cfg (fuel + 1) (.ifE line col conds) st =
        evalConds cfg fuel conds st) ∧
    (∀ (cfg : EvCfg) fuel st, evalConds cfg (fuel + 1) [] st =
      some (.ok .vnil, st)) ∧
    (∀ cfg fuel line col ce b rest st st' os st'',
      evalExpr cfg fuel ce st = some (.ok (.vbool true), st') →
      evalBlockCap cfg fuel b st' = some (.ok os, st'') →
      evalConds cfg (fuel + 1) (.mk line col (some ce) b :: rest) st =
        some (.ok (toSingleOrSliceObject os), st'')) ∧
    (∀ cfg fuel line col b rest st os st'',
      evalBlockCap cfg fuel b st = some (.ok os, st'') →
      evalConds cfg (fuel + 1) (.mk line col none b :: rest) st =
        some (.ok (toSingleOrSliceObject os), st'')) ∧
    (∀ cfg fuel line col ce b rest st st',
      evalExpr cfg fuel ce st = some (.ok (.vbool false), st') →
      evalConds cfg (fuel + 1) (.mk line col (some ce) b :: rest) st =
        evalConds cfg fuel rest st') ∧
    toSingleOrSliceObject [] = .vnil ∧
    (∀ o, toSingleOrSliceObject [o] = o) ∧
    (∀ o o' os, toSingleOrSliceObject (o :: o' :: os) =
      .vslice (o :: o' :: os)) ∧
    evalSource 25 "if true \"x\" end" [⟨[], false⟩] =
      some (.ok (.vstr "x")) ∧
    evalSource 25 "if false \"x\" end" [⟨[], false⟩] =
      some (.ok .vnil) := by
  refine ⟨?_, ?_, ?_, ?_, ?_, rfl, ?_, ?_, ?_, ?_⟩
  · intro cfg fuel line col conds st; simp [evalExpr]
  · intro cfg fuel st; simp [evalConds]
  · intro cfg fuel line col ce b rest st st' os st'' hc hb
    simp [evalConds, hc, toBoolV, hb]
  · intro cfg fuel line col b rest st os st'' hb
    simp [evalConds, hb]
  · intro cfg fuel line col ce b rest st st' hc
    simp [evalConds, hc, toBoolV]
  · intro o; rfl
  · intro o o' os; rfl
  · have heval : (evalTop (evalCfg id) 25 ifTrueProg
        [⟨[], false⟩]).map Prod.fst = some (.ok (.vstr "x")) := rfl
    simp only [evalSource, evalSourceOrd, ifTrue_lex, ifTrue_parse, heval]
  · have heval : (evalTop (evalCfg id) 25 ifFalseProg
        [⟨[], false⟩]).map Prod.fst = some (.ok .vnil) := rfl
    simp only [evalSource, evalSourceOrd, ifFalse_lex, ifFalse_parse, heval]

/-- Witness for C5: the first-true and condition-false cases at concrete
inputs. -/
theorem if_expression_spec_witness :
    evalConds (evalCfg id) 5
        [.mk 1 1 (some (.boolLit 1 4 true))
          (.mk 1 9 [.exprS 1 9 (.stringLit 1 9 "x")])] emptyEvSt =
      some (.ok (.vstr "x"), emptyEvSt) ∧
    evalConds (evalCfg id) 5
        [.mk 1 1 (some (.boolLit 1 4 false))
          (.mk 1 9 [.exprS 1 9 (.stringLit 1 9 "x")])] emptyEvSt =
      some (.ok .vnil, emptyEvSt) := by
  constructor
  · have h := if_expression_spec.2.2.1 (evalCfg id) 4 1 1 (.boolLit 1 4 true)
      (.mk 1 9 [.exprS 1 9 (.stringLit 1 9 "x")]) [] emptyEvSt emptyEvSt
      [.vstr "x"] emptyEvSt rfl rfl
    exact h
  · have h := if_expression_spec.2.2.2.2.1 (evalCfg id) 4 1 1
      (.boolLit 1 4 false) (.mk 1 9 [.exprS 1 9 (.stringLit 1 9 "x")]) []
      emptyEvSt emptyEvSt rfl
    rw [h]
    rfl

/-! ## C3 -/

/-- The scope for the `for i, i in r` runs: `r` is bound to
`ranger.NewInt(0, 2)`. -/
def forSameIdentChain : ScopeChain :=
  [⟨[("r", .vranger (IntRanger.newInt 0 2))], false⟩]

/-- The token stream and parse of `for i, i in r i end`. -/
def forSameIdentToks : List Token :=
  [⟨.forT, "for", 1, 1⟩, ⟨.identT, "i", 1, 5⟩, ⟨.commaT, ",", 1, 6⟩,
   ⟨.identT, "i", 1, 8⟩, ⟨.inT, "in", 1, 10⟩, ⟨.identT, "r", 1, 13⟩,
   ⟨.identT, "i", 1, 15⟩, ⟨.endT, "end", 1, 17⟩, ⟨.eofT, "", 1, 20⟩]

def forSameIdentProg : Program :=
  { startLine := 1, startCol := 1, stmts := [.exprS 1 1
      (.forE 1 1 ⟨1, 5, "i"⟩ (some ⟨1, 8, "i"⟩) (.identE 1 13 "r")
        (.mk 1 15 [.exprS 1 15 (.identE 1 15 "i")]))] }

theorem forSameIdent_lex :
    lexTokens true 25 "for i, i in r i end" = some forSameIdentToks := rfl

theorem forSameIdent_parse :
    parseProgram 25 forSameIdentToks = some (.ok forSameIdentProg) := rfl

theorem forSameIdent_eval :
    (evalTop (evalCfg id) 25 forSameIdentProg forSameIdentChain).map
        Prod.fst =
      some (.ok (.vslice
        [.vstatus ⟨0, true, false, true, false, true⟩,
         .vstatus ⟨1, false, true, false, true, false⟩])) := rfl

/-- **C3, counterexample.** Evaluating `for i, i in r i end` — main and
status identifier the same name `i`, unbound in every enclosing scope — is
*not* an evaluation error: both pre-checks pass (the name is not yet bound
when they run), the loop runs, and the body sees the status record under
`i`, yielding the sequence of the two status records. -/
theorem for_same_ident_counterexample :
    evalSource 25 "for i, i in r i end" forSameIdentChain =
      some (.ok (.vslice
        [.vstatus ⟨0, true, false, true, false, true⟩,
         .vstatus ⟨1, false, true, false, true, false⟩])) := by
  simp only [evalSource, evalSourceOrd, forSameIdent_lex, forSameIdent_parse,
    forSameIdent_eval]

/-- If no frame of a chain binds a name, none of its frames has the value
self-test succeed. -/
theorem scopeHasValue_false_forall (anc : List Frame) (name : String)
    (h : scopeHasValue anc name = false) :
    ∀ f ∈ anc, hasValueSelf f name = false := by
  induction anc with
  | nil => intro f hf; simp at hf
  | cons g rest ih =>
    simp only [scopeHasValue, Bool.or_eq_false_iff] at h
    intro f hf
    rcases List.mem_cons.mp hf with rfl | hf
    · exact h.1
    · exact ih h.2 f hf

/-- **C3, amended.** With the loop name unbound in every enclosing scope,
the per-iteration bind sequence of `evalForExpression` — clear the loop
scope, `Set` the value, then `Set` the status under the same name — leaves
the shared name bound to the *status* value (the status bind overwrites
the value bind); and the concrete evaluation of `for i, i in r i end`
returns the sequence of status records instead of raising a shadowing
error. -/
theorem for_same_ident_amended :
    (∀ (hl : Bindings) (anc : List Frame) (name : String) (v stv : Value),
      scopeHasValue anc name = false →
      scopeValue
        (scopeSet (scopeSet (scopeClearSelf (⟨hl, false⟩ :: anc)) name v)
          name stv) name = some stv) ∧
    evalSource 25 "for i, i in r i end" forSameIdentChain =
      some (.ok (.vslice
        [.vstatus ⟨0, true, false, true, false, true⟩,
         .vstatus ⟨1, false, true, false, true, false⟩])) := by
  constructor
  · intro hl anc name v stv h
    have hforall := scopeHasValue_false_forall anc name h
    have hnone := setAncestors_none anc name v hforall
    have hnone' := setAncestors_none anc name stv hforall
    simp [scopeClearSelf, scopeSet, hnone, hnone', setB, scopeValue, lookupB]
  · simp only [evalSource, evalSourceOrd, forSameIdent_lex, forSameIdent_parse,
      forSameIdent_eval]

/-- Witness for the amended C3 theorem at a concrete chain. -/
theorem for_same_ident_amended_witness :
    scopeHasValue [(⟨[("r", .vnil)], false⟩ : Frame)] "i" = false ∧
    scopeValue
      (scopeSet (scopeSet (scopeClearSelf
          ([⟨[("z", .vint 1)], false⟩, ⟨[("r", .vnil)], false⟩] : ScopeChain))
        "i" (.vint 0)) "i" (.vstatus ⟨0, true, false, true, false, true⟩))
      "i" = some (.vstatus ⟨0, true, false, true, false, true⟩) :=
  ⟨rfl,
   for_same_ident_amended.1 [("z", .vint 1)] [⟨[("r", .vnil)], false⟩] "i"
     (.vint 0) (.vstatus ⟨0, true, false, true, false, true⟩) rfl⟩

/-! ## C6 -/

theorem divZero_lex : lexTokens true 20 "5 / 0" = some
    [⟨.intT, "5", 1, 1⟩, ⟨.slashT, "/", 1, 3⟩, ⟨.intT, "0", 1, 5⟩,
     ⟨.eofT, "", 1, 6⟩] := rfl

def divZeroProg : Program :=
  { startLine := 1, startCol := 1, stmts := [.exprS 1 1
      (.infixE 1 1 "/" (.intLit 1 1 5) (.intLit 1 5 0))] }

theorem divZero_parse :
    parseProgram 20
      [⟨.intT, "5", 1, 1⟩, ⟨.slashT, "/", 1, 3⟩, ⟨.intT, "0", 1, 5⟩,
       ⟨.eofT, "", 1, 6⟩] = some (.ok divZeroProg) := rfl

theorem divZero_run :
    evalSource 20 "5 / 0" [⟨[], false⟩] =
      some (.err ⟨1, 1, "division by zero"⟩) := by
  have heval : (evalTop (evalCfg id) 20 divZeroProg [⟨[], false⟩]).map
      Prod.fst = some (.err ⟨1, 1, "division by zero"⟩) := rfl
  simp only [evalSource, evalSourceOrd, divZero_lex, divZero_parse, heval]

/-- **C6, counterexample.** Evaluating `5 / 0` fails with "division by
zero", but the error is reported at line 1 column 1 — the position of the
left operand `5` (the infix expression's recorded start) — not at the
operator's position, which the lexer assigns to column 3. -/
theorem div_zero_position_counterexample :
    evalSource 20 "5 / 0" [⟨[], false⟩] =
      some (.err ⟨1, 1, "division by zero"⟩) ∧
    lexTokens true 20 "5 / 0" = some
      [⟨.intT, "5", 1, 1⟩, ⟨.slashT, "/", 1, 3⟩, ⟨.intT, "0", 1, 5⟩,
       ⟨.eofT, "", 1, 6⟩] ∧
    (∀ msg, evalSource 20 "5 / 0" [⟨[], false⟩] ≠
      some (.err ⟨1, 3, msg⟩)) := by
  refine ⟨divZero_run, divZero_lex, ?_⟩
  intro msg h
  rw [divZero_run] at h
  simp at h

/-- One unfolding of the infix dispatch for the arithmetic operators `/`
and `%` (parseInfixExpression in parser/expression.go): the built infix
expression carries the left operand's position. -/
theorem parseStep_infixFn_arith (fuel : Nat) (left : Expression)
    (currPrec : Nat) (tt : TokType) (lit : String) (ln co : Nat)
    (nx : Token) (stream : List Token)
    (h : tt = .slashT ∨ tt = .modT) :
    parseStep (fuel + 1)
        (.infixFn left currPrec ⟨⟨tt, lit, ln, co⟩, nx, stream⟩) =
      match readNextToken ⟨⟨tt, lit, ln, co⟩, nx, stream⟩ with
      | .perr er => some (.perr er)
      | .ok _ p1 =>
        match parseStep fuel (.expr currPrec p1) with
        | none => none
        | some (.perr er) => some (.perr er)
        | some (.ok (.expr right) p2) =>
          some (.ok (.exprCont
            (.infixE left.lineOf left.colOf lit left right) true) p2)
        | some (.ok _ _) => none := by
  rcases h with rfl | rfl <;> rfl

/-- **C6, amended.** An integer `/` or `%` whose right operand evaluates to
0 fails with the evaluation error "division by zero" and produces no
result; the error is reported at the infix expression's recorded position,
which the parser sets to the position of the *left operand* (the
expression's start), not the operator token's position. -/
theorem div_zero_position_amended :
    (∀ cfg fuel l r st st' st'' lv line col op,
      (op = "/" ∨ op = "%") →
      evalExpr cfg fuel l st = some (.ok (.vint lv), st') →
      evalExpr cfg fuel r st' = some (.ok (.vint 0), st'') →
      evalExpr cfg (fuel + 1) (.infixE line col op l r) st =
        some (.err ⟨line, col, "division by zero"⟩, st'')) ∧
    (∀ fuel left currPrec p e o p',
      p.curr.ttype = .slashT ∨ p.curr.ttype = .modT →
      parseInfixFn (fuel + 1) left currPrec p = some (.ok (e, o) p') →
      e.lineOf = left.lineOf ∧ e.colOf = left.colOf) := by
  constructor
  · intro cfg fuel l r st st' st'' lv line col op hop hl hr
    rcases hop with rfl | rfl <;>
      simp [evalExpr, hl, hr, isBoolV, evalInfixKinds, isStringV, isIntV,
        toInt64V, evalIntInfix]
  · intro fuel left currPrec p e o p' hop hparse
    obtain ⟨⟨tt, lit, ln, co⟩, nx, stream⟩ := p
    have hop' : tt = .slashT ∨ tt = .modT := hop
    have hstep := parseStep_infixFn_arith fuel left currPrec tt lit ln co
      nx stream hop'
    simp only [parseInfixFn, hstep] at hparse
    rcases hr : readNextToken ⟨⟨tt, lit, ln, co⟩, nx, stream⟩ with er | ⟨u, p1⟩
    · rw [hr] at hparse; simp at hparse
    · rw [hr] at hparse
      dsimp only at hparse
      rcases hps : parseStep fuel (.expr currPrec p1) with _ | out
      · rw [hps] at hparse; simp at hparse
      · rw [hps] at hparse
        rcases out with er | ⟨a, p2⟩
        · simp at hparse
        · rcases a with e1 | ⟨e1, c⟩ | ⟨b, et⟩ | ss | es | ent | s
          · simp only [Option.some.injEq, POut.ok.injEq, Prod.mk.injEq]
              at hparse
            obtain ⟨⟨rfl, rfl⟩, rfl⟩ := hparse
            exact ⟨rfl, rfl⟩
          all_goals simp at hparse

/-- Witness for the amended C6 theorem: `5 / 0` as the evaluator and the
parser see it. -/
theorem div_zero_position_amended_witness :
    evalExpr (evalCfg id) 2 (.infixE 1 1 "/" (.intLit 1 1 5) (.intLit 1 5 0))
        emptyEvSt =
      some (.err ⟨1, 1, "division by zero"⟩, emptyEvSt) ∧
    parseInfixFn 5 (.intLit 1 1 5) 7
        { curr := ⟨.slashT, "/", 1, 3⟩, next := ⟨.intT, "0", 1, 5⟩,
          stream := [⟨.eofT, "", 1, 6⟩] } =
      some (.ok (.infixE 1 1 "/" (.intLit 1 1 5) (.intLit 1 5 0), true)
        { curr := ⟨.eofT, "", 1, 6⟩, next := ⟨.eofT, "", 1, 6⟩, stream := [] }) ∧
    (Expression.infixE 1 1 "/" (.intLit 1 1 5) (.intLit 1 5 0)).lineOf = 1 ∧
    (Expression.infixE 1 1 "/" (.intLit 1 1 5) (.intLit 1 5 0)).colOf = 1 := by
  refine ⟨?_, rfl, ?_⟩
  · exact div_zero_position_amended.1 (evalCfg id) 1 (.intLit 1 1 5)
      (.intLit 1 5 0) emptyEvSt emptyEvSt emptyEvSt 5 1 1 "/" (.inl rfl)
      rfl rfl
  · exact div_zero_position_amended.2 4 (.intLit 1 1 5) 7
      { curr := ⟨.slashT, "/", 1, 3⟩, next := ⟨.intT, "0", 1, 5⟩,
        stream := [⟨.eofT, "", 1, 6⟩] }
      (.infixE 1 1 "/" (.intLit 1 1 5) (.intLit 1 5 0)) true
      { curr := ⟨.eofT, "", 1, 6⟩, next := ⟨.eofT, "", 1, 6⟩, stream := [] }
      (.inl rfl) rfl

/-! ## C7 -/

/-- **C7, counterexample.** Lexing the five-rune template source
quote, backslash, backslash, n, quote emits a STRING token whose literal
is a backslash followed by a *newline*: the six replacement passes run
sequentially and the backslash-n pass consumes the second backslash
before the backslash-backslash pass runs.  A left-to-right decoding, as
the claim reads, would instead give a backslash followed by the letter n. -/
theorem string_escape_decoding_counterexample :
    lexTokens true 20 "\"\\\\n\"" =
      some [⟨.stringT, "\\\n", 1, 1⟩, ⟨.eofT, "", 1, 6⟩] ∧
    decodeEscapes ['\\', '\\', 'n'] = ['\\', '\n'] ∧
    ("\\\n" : String) ≠ "\\n" := by
  refine ⟨rfl, rfl, ?_⟩
  decide

/-- If the pattern begins with a rune that does not occur in the subject,
the replacement leaves the subject unchanged. -/
theorem replaceAllF_head_not_mem (c0 : Char) (pt rep : List Char) :
    ∀ (fuel : Nat) (s : List Char), c0 ∉ s →
      replaceAllF fuel s (c0 :: pt) rep = s := by
  intro fuel
  induction fuel with
  | zero => intro s _; rfl
  | succ n ih =>
    intro s hmem
    cases s with
    | nil => rfl
    | cons c s' =>
      have hc : c0 ≠ c := fun h => hmem (by rw [h]; exact List.mem_cons_self c s')
      have hbeq : (c0 == c) = false := beq_eq_false_iff_ne.mpr hc
      have hmem' : c0 ∉ s' := fun hm => hmem (List.mem_cons_of_mem c hm)
      simp [replaceAllF, List.isPrefixOf, hbeq, ih s' hmem']

theorem replaceAll_not_mem (rep pt : List Char) {c0 : Char}
    {s : List Char} (h : c0 ∉ s) : replaceAll s (c0 :: pt) rep = s := by
  rw [replaceAll, if_neg (by simp)]
  exact replaceAllF_head_not_mem c0 pt rep s.length s h

/-- Backslash-free string bodies are unchanged by the escape translation. -/
theorem decodeEscapes_no_backslash (s : List Char) (h : '\\' ∉ s) :
    decodeEscapes s = s := by
  simp only [decodeEscapes, replaceAll_not_mem _ _ h]

/-- A successfully terminated string scan stops at an unescaped occurrence
of the opening quote. -/
theorem scanString_stop (q : Char) :
    ∀ (fuel : Nat) (pb : Bool) (buf : List Char) (l : LexSt)
      (buf' : List Char) (l' : LexSt),
      scanString q fuel pb buf l = some (buf', l', true) →
      l'.curr = some q := by
  intro fuel
  induction fuel with
  | zero =>
    intro pb buf l buf' l' h
    simp [scanString] at h
  | succ n ih =>
    intro pb buf l buf' l' h
    obtain ⟨curr, nx, rst, ln, co⟩ := l
    rcases curr with _ | c
    · have h' : (some (buf, (⟨none, nx, rst, ln, co⟩ : LexSt), false) :
          Option (List Char × LexSt × Bool)) = some (buf', l', true) := h
      simp at h'
    · have h' : (if (c = q && !pb : Bool) = true then
            (some (buf, (⟨some c, nx, rst, ln, co⟩ : LexSt), true) :
              Option (List Char × LexSt × Bool))
          else
            scanString q n (c = '\\') (buf ++ [c])
              (readNextChar ⟨some c, nx, rst, ln, co⟩)) =
          some (buf', l', true) := h
      by_cases hcq : (c = q && !pb : Bool) = true
      · rw [if_pos hcq] at h'
        simp only [Option.some.injEq, Prod.mk.injEq, and_true] at h'
        obtain ⟨-, hl⟩ := h'
        subst hl
        simp only [Bool.and_eq_true, decide_eq_true_eq] at hcq
        simp [hcq.1]
      · rw [if_neg hcq] at h'
        exact ih _ _ _ _ _ h'

/-- One unfolding of the code-mode dispatch at an opening quote
(`parseString` in lexer/lexer.go). -/
theorem lexStep_string_arm (sic : Bool) (fuel : Nat) (q : Char)
    (nx : Option Char) (rst : List Char) (ln co : Nat)
    (hq : q = '\"' ∨ q = '\'') :
    lexStep sic (fuel + 2) .codeFn ⟨some q, nx, rst, ln, co⟩ =
      match scanString q (fuel + 1) false []
          (readNextChar ⟨some q, nx, rst, ln, co⟩) with
      | none => none
      | some (buf, l', terminated) =>
        if terminated then
          match lexStep sic (fuel + 1) .codeFn (readNextChar l') with
          | none => none
          | some rest =>
            some (mkToken .stringT (String.mk (decodeEscapes buf)) ln co
              :: rest)
        else
          match lexStep sic (fuel + 1) .eofFn l' with
          | none => none
          | some rest =>
            some (mkToken .stringT (String.mk buf) ln co :: rest) := by
  rcases hq with rfl | rfl <;> rfl

/-- **C7, amended.** In code mode an opening quote scans the content up to
the first unescaped matching quote (the scan only stops at a quote not
preceded by a backslash rune), and the emitted STRING token's literal is
the raw content transformed by six *sequential global replacements*, in
the order backslash-r, backslash-n, backslash-t, backslash-quote,
backslash-apostrophe, backslash-backslash.  Each single escape decodes as
the claim says and backslash-free content is unchanged, but the passes do
not implement a left-to-right decoding: the body
backslash-backslash-n becomes backslash-newline, because the second pass
matches the second backslash before the last pass can consume the pair. -/
theorem string_escape_decoding_amended :
    (∀ (sic : Bool) (fuel : Nat) (l : LexSt) (q : Char) (buf : List Char)
       (l' : LexSt),
      q = '\"' ∨ q = '\'' →
      l.curr = some q →
      scanString q (fuel + 1) false [] (readNextChar l) =
        some (buf, l', true) →
      lexStep sic (fuel + 2) .codeFn l =
        match lexStep sic (fuel + 1) .codeFn (readNextChar l') with
        | none => none
        | some rest =>
          some (mkToken .stringT (String.mk (decodeEscapes buf))
            l.line l.col :: rest)) ∧
    (∀ q fuel pb buf l buf' l',
      scanString q fuel pb buf l = some (buf', l', true) →
      LexSt.curr l' = some q) ∧
    (∀ s : List Char, '\\' ∉ s → decodeEscapes s = s) ∧
    decodeEscapes ['\\', 'r'] = ['\r'] ∧
    decodeEscapes ['\\', 'n'] = ['\n'] ∧
    decodeEscapes ['\\', 't'] = ['\t'] ∧
    decodeEscapes ['\\', '\"'] = ['\"'] ∧
    decodeEscapes ['\\', '\''] = ['\''] ∧
    decodeEscapes ['\\', '\\'] = ['\\'] ∧
    decodeEscapes ['\\', '\\', 'n'] = ['\\', '\n'] := by
  refine ⟨?_, fun q fuel => scanString_stop q fuel,
    decodeEscapes_no_backslash, rfl, rfl, rfl, rfl, rfl, rfl, rfl⟩
  intro sic fuel l q buf l' hq hcurr hscan
  obtain ⟨curr, nx, rst, ln, co⟩ := l
  have hc : curr = some q := hcurr
  subst hc
  rw [lexStep_string_arm sic fuel q nx rst ln co hq, hscan]
  rfl

/-- Witness for the amended C7 theorem: the literal `"ab"` scanned from
code mode (a backslash-free body), with the scan stopping at the closing
quote. -/
theorem string_escape_decoding_amended_witness :
    lexStep true 10 .codeFn ⟨some '\"', some 'a', ['b', '\"'], 1, 1⟩ =
      some [⟨.stringT, "ab", 1, 1⟩, ⟨.eofT, "", 1, 5⟩] ∧
    decodeEscapes ['a', 'b'] = ['a', 'b'] ∧
    LexSt.curr ⟨some '\"', none, [], 1, 4⟩ = some '\"' := by
  refine ⟨?_, ?_, ?_⟩
  · have h := string_escape_decoding_amended.1 true 8
      ⟨some '\"', some 'a', ['b', '\"'], 1, 1⟩ '\"' ['a', 'b']
      ⟨some '\"', none, [], 1, 4⟩ (Or.inl rfl) rfl rfl
    rw [h]
    rfl
  · exact string_escape_decoding_amended.2.2.1 ['a', 'b'] (by decide)
  · exact string_escape_decoding_amended.2.1 '\"' 9 false []
      (readNextChar ⟨some '\"', some 'a', ['b', '\"'], 1, 1⟩) ['a', 'b']
      ⟨some '\"', none, [], 1, 4⟩ rfl

/-! ## C8 -/

/-- The token stream and parse of the hash source. -/
def hashToks : List Token :=
  [⟨.leftBraceT, "\x7b", 1, 1⟩, ⟨.stringT, "a", 1, 3⟩, ⟨.colonT, ":", 1, 6⟩,
   ⟨.identT, "ua", 1, 8⟩, ⟨.commaT, ",", 1, 10⟩, ⟨.stringT, "b", 1, 12⟩,
   ⟨.colonT, ":", 1, 15⟩, ⟨.identT, "ub", 1, 17⟩,
   ⟨.rightBraceT, "\x7d", 1, 20⟩, ⟨.eofT, "", 1, 21⟩]

def hashProg : Program :=
  { startLine := 1, startCol := 1, stmts := [.exprS 1 1 (.hashE 1 1
      [("a", .identE 1 8 "ua"), ("b", .identE 1 17 "ub")])] }

theorem hash_lex :
    lexTokens true 30 "\x7b \"a\": ua, \"b\": ub \x7d" = some hashToks := rfl

theorem hash_parse : parseProgram 30 hashToks = some (.ok hashProg) := rfl

/-- **C8, counterexample.** The evaluator ranges over the Go map holding
the hash entries, whose iteration order is unspecified; the embedding
exposes that order as an oracle constrained only to be a permutation of
the parsed entries.  The identity and the reversing oracle are both legal,
yet on the hash of the two unbound identifiers `ua` and `ub` against an
empty scope they evaluate different entries first and fail with different
errors — so the entry evaluation order is not determined by the insertion
order of the parsed source text. -/
theorem hash_order_counterexample :
    LegalOrder id ∧
    LegalOrder (fun es => es.reverse) ∧
    evalSourceOrd id 30 "\x7b \"a\": ua, \"b\": ub \x7d" [⟨[], false⟩] =
      some (.err ⟨1, 8, "identifier not found in scope: ua"⟩) ∧
    evalSourceOrd (fun es => es.reverse) 30 "\x7b \"a\": ua, \"b\": ub \x7d"
        [⟨[], false⟩] =
      some (.err ⟨1, 17, "identifier not found in scope: ub"⟩) ∧
    (some (.err ⟨1, 8, "identifier not found in scope: ua"⟩) :
        Option (EvOut Value)) ≠
      some (.err ⟨1, 17, "identifier not found in scope: ub"⟩) := by
  refine ⟨fun entries => List.Perm.refl _,
    fun entries => List.reverse_perm entries, ?_, ?_, ?_⟩
  · have heval : (evalTop (evalCfg id) 30 hashProg [⟨[], false⟩]).map
        Prod.fst =
      some (.err ⟨1, 8, "identifier not found in scope: ua"⟩) := rfl
    simp only [evalSourceOrd, hash_lex, hash_parse, heval]
  · have heval : (evalTop (evalCfg (fun es => es.reverse)) 30 hashProg
        [⟨[], false⟩]).map Prod.fst =
      some (.err ⟨1, 17, "identifier not found in scope: ub"⟩) := rfl
    simp only [evalSourceOrd, hash_lex, hash_parse, heval]
  · intro h
    simp only [Option.some.injEq, EvOut.err.injEq, EvalError.mk.injEq] at h
    exact absurd h.2.1 (by decide)

/-- A successful run of the hash-entry loop appends, in todo order, one
value per entry: the keys of the result map are the accumulated keys
followed by the todo keys. -/
theorem evalHashEntriesE_keys (cfg : EvCfg) (line col : Nat) :
    ∀ (fuel : Nat) (todo : List (String × Expression))
      (values : List (String × Value)) (st : EvSt) (v : Value) (st' : EvSt),
      evalHashEntriesE cfg fuel line col todo values st =
        some (.ok v, st') →
      ∃ vs : List (String × Value), v = .vmap vs ∧
        vs.map Prod.fst = values.map Prod.fst ++ todo.map Prod.fst := by
  intro fuel
  induction fuel with
  | zero =>
    intro todo values st v st' h
    simp [evalHashEntriesE] at h
  | succ n ih =>
    intro todo values st v st' h
    match todo with
    | [] =>
      have h' : (some (.ok (Value.vmap values), st) : EvRes Value) =
          some (.ok v, st') := h
      simp only [Option.some.injEq, Prod.mk.injEq, EvOut.ok.injEq] at h'
      obtain ⟨hv, -⟩ := h'
      exact ⟨values, hv.symm, by simp⟩
    | (key, expr) :: rest =>
      have h' : (if containsB values key then
            (some (.err ⟨line, col,
              s!"duplicate key in hash expression: {key}"⟩, st) : EvRes Value)
          else
            match evalExpr cfg n expr st with
            | none => none
            | some (.err er, st2) => some (.err er, st2)
            | some (.ok w, st2) =>
              evalHashEntriesE cfg n line col rest (values ++ [(key, w)]) st2) =
          some (.ok v, st') := h
      by_cases hcb : containsB values key
      · rw [if_pos hcb] at h'
        simp at h'
      · rw [if_neg hcb] at h'
        rcases hee : evalExpr cfg n expr st with _ | ⟨out, st2⟩
        · rw [hee] at h'; simp at h'
        · rw [hee] at h'
          rcases out with w | er
          · obtain ⟨vs, hv, hmap⟩ :=
              ih rest (values ++ [(key, w)]) st2 v st' h'
            refine ⟨vs, hv, ?_⟩
            simpa [List.map_append] using hmap
          · simp at h'

/-- **C8, amended.** The hash expression hands its parsed entries to the
map-iteration oracle and evaluates them in the order the oracle returns;
the oracle is constrained only to return a permutation of the entries, so
for every legal oracle a successful hash evaluation binds exactly the
parsed keys, as a permutation of their insertion order — but no particular
order, and in particular not necessarily the insertion order of the parsed
source text, is guaranteed. -/
theorem hash_order_amended :
    (∀ (cfg : EvCfg) (fuel : Nat) (line col : Nat)
       (entries : List (String × Expression)) (st : EvSt),
      evalExpr cfg (fuel + 1) (.hashE line col entries) st =
        evalHashEntriesE cfg fuel line col (cfg.hashOrder entries) [] st) ∧
    (∀ ord, LegalOrder ord →
      ∀ (fuel : Nat) (line col : Nat)
        (entries : List (String × Expression)) (st : EvSt) (v : Value)
        (st' : EvSt),
        evalExpr (evalCfg ord) (fuel + 1) (.hashE line col entries) st =
          some (.ok v, st') →
        ∃ vs : List (String × Value), v = .vmap vs ∧
          (vs.map Prod.fst).Perm (entries.map Prod.fst)) := by
  constructor
  · intro cfg fuel line col entries st
    rfl
  · intro ord hord fuel line col entries st v st' h
    have hA : evalExpr (evalCfg ord) (fuel + 1) (.hashE line col entries) st =
        evalHashEntriesE (evalCfg ord) fuel line col
          ((evalCfg ord).hashOrder entries) [] st := rfl
    rw [hA] at h
    obtain ⟨vs, hv, hmap⟩ :=
      evalHashEntriesE_keys (evalCfg ord) line col fuel
        ((evalCfg ord).hashOrder entries) [] st v st' h
    refine ⟨vs, hv, ?_⟩
    rw [hmap]
    simp only [List.map_nil, List.nil_append]
    exact (hord entries).map Prod.fst

/-- Witness for the amended C8 theorem: a one-entry hash under the
identity oracle. -/
theorem hash_order_amended_witness :
    evalExpr (evalCfg id) 4
        (.hashE 1 1 [("a", .stringLit 1 1 "x")]) emptyEvSt =
      evalHashEntriesE (evalCfg id) 3 1 1
        [("a", .stringLit 1 1 "x")] [] emptyEvSt ∧
    (∃ vs : List (String × Value), Value.vmap [("a", Value.vstr "x")] =
        .vmap vs ∧
      (vs.map Prod.fst).Perm
        ([(("a" : String), Expression.stringLit 1 1 "x")].map Prod.fst)) := by
  constructor
  · exact hash_order_amended.1 (evalCfg id) 3 1 1
      [("a", .stringLit 1 1 "x")] emptyEvSt
  · exact hash_order_amended.2 id (fun entries => List.Perm.refl _) 3 1 1
      [("a", .stringLit 1 1 "x")] emptyEvSt (.vmap [("a", .vstr "x")])
      emptyEvSt rfl

/-! ## C9 -/

/-- **C9.** For the empty input: the lexer emits exactly one token, `EOF`;
the parser returns a `Program` with zero statements; the evaluator returns
nil for that program; and the renderer writes zero bytes of output. -/
theorem empty_input_pipeline :
    lexTokens false 10 "" = some [⟨.eofT, "", 1, 1⟩] ∧
    parseProgram 10 [⟨.eofT, "", 1, 1⟩] = some (.ok ⟨1, 1, []⟩) ∧
    evalTop (evalCfg id) 10 ⟨1, 1, []⟩ [⟨[], false⟩] =
      some (.ok .vnil, ⟨[⟨[], false⟩], 0, false, false⟩) ∧
    renderTemplate id 10 "" [⟨[], false⟩] = some (.ok "") ∧
    renderWrite .vnil = "" := by
  refine ⟨rfl, rfl, rfl, rfl, ?_⟩
  simp [renderWrite, expectSafe]

end Copper
